import Mathlib

/-!
Verification of the midi-toolkit-rs core: the note-stream merger
(`src/midi-toolkit/src/sequence/note/merge_notes.rs`) and the streaming track
decoder (`src/midi-toolkit/src/io/track_parser.rs`).

The Rust code is shallowly embedded: iterators become lists, mutable state is
threaded explicitly, machine integers are `Nat`/`Int` with explicit `% 2 ^ w`
where overflow is possible, and panics are modelled as `Option`/`none` results.
-/

/-! ## Note-stream merger (merge_notes.rs) -/

/-- Embedding of the Rust trait `MIDINote<T>`: the merger only uses the
`start()` accessor, so the class carries exactly that. The `MIDINum` bound on
`T` is embedded as `LinearOrder T` (the merger only compares times). -/
class MIDINote (T : outParam Type) (N : Type) where
  start : N → T

/-- Embedding of the local struct `SeqTime` of `merge_notes_array`
(merge_notes.rs lines 14-18): one live cursor, holding the stream tail, the
cached start time and the pending value. -/
structure SeqTime (T N E : Type) where
  iter : List (Except E N)
  time : T
  next : Option N

variable {T N E : Type} [LinearOrder T] [MIDINote T N]

/-- Number of values still held by one cursor (pending value plus stream
tail); used only as a termination measure for the merge loop. -/
def cursorSize (c : SeqTime T N E) : Nat :=
  c.iter.length + (match c.next with | some _ => 1 | none => 0)

/-- Total number of values held by the live cursor list; the merge loop's
termination measure. -/
def totalSize (seqs : List (SeqTime T N E)) : Nat :=
  (seqs.map cursorSize).sum

theorem sum_map_eraseIdx {α M : Type} [AddCommMonoid M] (f : α → M) :
    ∀ (l : List α) (i : Nat) (c : α), l[i]? = some c →
      ((l.eraseIdx i).map f).sum + f c = (l.map f).sum
  | [], i, c, h => by simp at h
  | x :: xs, 0, c, h => by
    simp only [List.getElem?_cons_zero, Option.some.injEq] at h
    subst h
    simp [List.eraseIdx, add_comm]
  | x :: xs, i + 1, c, h => by
    simp only [List.getElem?_cons_succ] at h
    have ih := sum_map_eraseIdx f xs i c h
    simp only [List.eraseIdx, List.map_cons, List.sum_cons, add_assoc, ih]

theorem sum_map_set {α M : Type} [AddCommMonoid M] (f : α → M) :
    ∀ (l : List α) (i : Nat) (c c' : α), l[i]? = some c →
      ((l.set i c').map f).sum + f c = (l.map f).sum + f c'
  | [], i, c, c', h => by simp at h
  | x :: xs, 0, c, c', h => by
    simp only [List.getElem?_cons_zero, Option.some.injEq] at h
    subst h
    simp only [List.set, List.map_cons, List.sum_cons]
    rw [add_comm (f c') _, add_assoc, add_comm (f c') _, ← add_assoc, add_comm (f x) _]
  | x :: xs, i + 1, c, c', h => by
    simp only [List.getElem?_cons_succ] at h
    have ih := sum_map_set f xs i c c' h
    simp only [List.set, List.map_cons, List.sum_cons, add_assoc, ih]

/-- Embedding of the scan loop of `merge_notes_array` (merge_notes.rs lines
41-50): fold over the cursor times, keeping the index and time of the
smallest element seen so far, updating only on a strictly smaller time. -/
def findSmallestAux : List T → Nat → Nat → T → Nat × T
  | [], _, si, st => (si, st)
  | t :: rest, i, si, st =>
    if t < st then findSmallestAux rest (i + 1) i t
    else findSmallestAux rest (i + 1) si st

/-- Embedding of the merge loop of `merge_notes_array` (merge_notes.rs lines
40-76). `drain = none` is the outer `while` iteration (scan for the smallest
cursor); `drain = some (si, st)` is the inner `loop` draining cursor `si`
whose scan-time minimum was `st`. Out-of-bounds indexing and `take().unwrap()`
on an empty `next` slot are Rust panics, modelled as `none`. -/
def mergeGo (seqs : List (SeqTime T N E)) (drain : Option (Nat × T)) :
    Option (List (Except E N)) :=
  match drain with
  | none =>
    match seqs with
    | [] => some []
    | c :: cs =>
      mergeGo (c :: cs) (some (findSmallestAux ((c :: cs).map SeqTime.time) 0 0 c.time))
  | some (si, st) =>
    match hc : seqs[si]? with
    | none => none
    | some c =>
      match hn : c.next with
      | none => none
      | some note =>
        match hi : c.iter with
        | [] => Option.map (fun out => Except.ok note :: out) (mergeGo (seqs.eraseIdx si) none)
        | .error e :: _ => some [Except.ok note, Except.error e]
        | .ok n :: rest =>
          if MIDINote.start n ≠ st then
            Option.map (fun out => Except.ok note :: out)
              (mergeGo (seqs.set si ⟨rest, MIDINote.start n, some n⟩) none)
          else
            Option.map (fun out => Except.ok note :: out)
              (mergeGo (seqs.set si ⟨rest, MIDINote.start n, some n⟩) (some (si, st)))
termination_by (totalSize seqs, match drain with | none => 1 | some _ => 0)
decreasing_by
  · exact Prod.Lex.right _ (by omega)
  · apply Prod.Lex.left
    have h := sum_map_eraseIdx cursorSize seqs si c hc
    have h1 : 1 ≤ cursorSize c := by simp [cursorSize, hn]
    simp only [totalSize]
    omega
  · apply Prod.Lex.left
    have h := sum_map_set cursorSize seqs si c ⟨rest, MIDINote.start n, some n⟩ hc
    have h2 : cursorSize c = cursorSize (⟨rest, MIDINote.start n, some n⟩ : SeqTime T N E) + 1 := by
      simp [cursorSize, hn, hi]
    simp only [totalSize] at h ⊢
    omega
  · apply Prod.Lex.left
    have h := sum_map_set cursorSize seqs si c ⟨rest, MIDINote.start n, some n⟩ hc
    have h2 : cursorSize c = cursorSize (⟨rest, MIDINote.start n, some n⟩ : SeqTime T N E) + 1 := by
      simp [cursorSize, hn, hi]
    simp only [totalSize] at h ⊢
    omega

/-- Embedding of the initialisation loop of `merge_notes_array` (merge_notes.rs
lines 21-38): pull the first element of every stream in registration order,
skip exhausted streams, stop at the first stream whose head is an error
(`yield_error!` yields that error and returns). -/
def buildCursors : List (List (Except E N)) → Except E (List (SeqTime T N E))
  | [] => .ok []
  | s :: ss =>
    match s with
    | [] => buildCursors ss
    | .error e :: _ => .error e
    | .ok n :: rest =>
      match (buildCursors ss : Except E (List (SeqTime T N E))) with
      | .error e => .error e
      | .ok cs => .ok (⟨rest, MIDINote.start n, some n⟩ :: cs)

/-- Embedding of `merge_notes_array` (merge_notes.rs lines 6-77): the lazily
generated output is the finite list of yielded items; a `none` result models a
panic inside the generator. An error hit during initialisation is yielded as
the only item. -/
def merge_notes_array (array : List (List (Except E N))) : Option (List (Except E N)) :=
  match buildCursors (T := T) array with
  | .error e => some [.error e]
  | .ok seqs => mergeGo seqs none

/-- Well-formed cursor, as claimed by the spec: the pending slot is full and
the cached time is the pending value's start time. -/
def WFCursor (c : SeqTime T N E) : Prop :=
  ∃ n, c.next = some n ∧ c.time = MIDINote.start n

/-- Pending-value ordering used to state sortedness of note streams. -/
def sortedByStart (l : List N) : Prop :=
  l.Chain' fun a b => (MIDINote.start a : T) ≤ MIDINote.start b

/-- Cursor contents seen as pure notes (pending value, then the `Ok` values of
the stream tail); used for multiset bookkeeping of the merge. -/
def cursorNotes (c : SeqTime T N E) : List N :=
  c.next.toList ++ c.iter.filterMap Except.toOption

/-- Good cursor for the sorted, all-`Ok` merge argument: pending slot full,
stream tail all `Ok`, cached time correct, contents sorted by start time. -/
def GoodCursor (c : SeqTime T N E) : Prop :=
  ∃ n ns, c.next = some n ∧ c.iter = ns.map Except.ok ∧ c.time = MIDINote.start n ∧
    sortedByStart (T := T) (n :: ns)

/-! ## Track decoder (track_parser.rs) -/

/-- Embedding of `MIDIParseError` (declared in `io/errors.rs`, outside the
shown core). Modelled from the spec: the taxonomy is `CorruptEvent` carrying
track index and byte offset, and a read failure (unexpected end of data)
propagated from the byte-source. -/
inductive MIDIParseError where
  | corruptEvent (track_number : Nat) (position : Nat)
  | unexpectedEOF (track_number : Nat) (position : Nat)
deriving DecidableEq, Repr

/-- Embedding of the decoded `Event` union (declared in `events.rs`, outside
the shown core). Modelled from the spec: one variant per message category as
listed in the spec's data model; text kinds and unknown meta sub-types carry
the raw sub-type byte. -/
inductive Event where
  | noteOff (channel key : Nat)
  | noteOn (channel key vel : Nat)
  | polyphonicKeyPressure (channel key vel : Nat)
  | controlChange (channel controller value : Nat)
  | programChange (channel program : Nat)
  | channelPressure (channel pressure : Nat)
  | pitchWheelChange (channel : Nat) (value : Int)
  | systemExclusive (data : List Nat)
  | songPositionPointer (value : Nat)
  | songSelect (value : Nat)
  | tuneRequest
  | endOfExclusive
  | trackStart
  | text (kind : Nat) (data : List Nat)
  | channelPrefixEvent (value : Nat)
  | midiPort (port : Nat)
  | tempo (micros : Nat)
  | smpteOffset (hr mn se fr ff : Nat)
  | timeSignature (nn dd cc bb : Nat)
  | keySignature (sf mi : Nat)
  | unknownMeta (subtype : Nat) (data : List Nat)
  | undefined (status : Nat)
deriving DecidableEq, Repr

/-- Embedding of `Delta<u64, Event>` (declared in `sequence/event.rs`, outside
the shown core). Modelled from the spec: a decoded item is a
`(delta-time, Event)` pair. -/
structure Delta (E : Type) where
  delta : Nat
  event : E
deriving DecidableEq, Repr

/-- Embedding of the `TrackReader` byte-source capability (declared in
`io/readers.rs`, outside the shown core). Modelled from the spec: it exposes
`read() -> byte or end-of-stream error`, `pos() -> absolute byte offset`,
`is_at_end() -> bool` and a `track_number` used in error reporting. Here the
underlying track is a byte list and `pos` indexes into it. -/
structure Reader where
  data : List Nat
  pos : Nat
  track_number : Nat
deriving DecidableEq, Repr

/-- Modelled from the spec: `read()` returns the byte at the current offset
and advances, or fails (unexpected end of data) leaving the position fixed. -/
def Reader.read (r : Reader) : Except MIDIParseError Nat × Reader :=
  match r.data[r.pos]? with
  | some b => (.ok b, { r with pos := r.pos + 1 })
  | none => (.error (.unexpectedEOF r.track_number r.pos), r)

/-- Modelled from the spec: `is_at_end()` is true when the offset has reached
the end of the track data. -/
def Reader.isAtEnd (r : Reader) : Bool :=
  r.data.length ≤ r.pos

/-- Well-formed byte-source: every stored value is a byte. -/
def Reader.wfBytes (r : Reader) : Prop :=
  ∀ b ∈ r.data, b < 256

/-- Embedding of `TrackParser<T>` (track_parser.rs lines 5-10). `pushback` is
the `i16` sentinel field (-1 means empty). -/
structure TrackParser where
  reader : Reader
  pushback : Int
  prev_command : Nat
  errored : Bool
deriving DecidableEq, Repr

/-- Embedding of `ParserCheckpoint` (track_parser.rs lines 12-17). -/
structure ParserCheckpoint where
  pushback : Int
  prev_command : Nat
  reader_pos : Nat
  ended : Bool
deriving DecidableEq, Repr

/-- Embedding of `ParserCheckpoint::reader_pos` (track_parser.rs lines 20-22). -/
def ParserCheckpoint.reader_pos_fn (c : ParserCheckpoint) : Nat :=
  c.reader_pos

/-- Embedding of `TrackParser::from_checkpoint` (track_parser.rs lines 26-39):
the `assert_eq!` on positions is a Rust panic, modelled as `none`. -/
def TrackParser.from_checkpoint (reader : Reader) (checkpoint : ParserCheckpoint) :
    Option TrackParser :=
  if checkpoint.reader_pos = reader.pos then
    some { reader := reader, pushback := checkpoint.pushback,
           prev_command := checkpoint.prev_command, errored := checkpoint.ended }
  else
    none

/-- Embedding of `TrackParser::new` (track_parser.rs lines 41-48). -/
def TrackParser.new (reader : Reader) : TrackParser :=
  { reader := reader, pushback := -1, prev_command := 0, errored := false }

/-- Modelled from the spec: `checkpoint()` captures the immutable snapshot
`{pushback, running_status, byte-source position, terminated}` (the capture
method itself is outside the shown core, but the snapshot type is
`ParserCheckpoint` above). -/
def TrackParser.checkpoint (p : TrackParser) : ParserCheckpoint :=
  { pushback := p.pushback, prev_command := p.prev_command,
    reader_pos := p.reader.pos, ended := p.errored }

/-- Embedding of `TrackParser::read` (track_parser.rs lines 50-57): consume
the pushback slot if occupied (the stored `i16` cast back to `u8`), else read
from the byte-source. -/
def TrackParser.read (p : TrackParser) : Except MIDIParseError Nat × TrackParser :=
  if p.pushback ≠ -1 then
    (.ok (p.pushback % 256).toNat, { p with pushback := -1 })
  else
    match p.reader.read with
    | (res, r) => (res, { p with reader := r })

/-- Embedding of `TrackParser::read_fast` (track_parser.rs lines 59-61): read
from the byte-source directly, bypassing the pushback slot. -/
def TrackParser.read_fast (p : TrackParser) : Except MIDIParseError Nat × TrackParser :=
  match p.reader.read with
  | (res, r) => (res, { p with reader := r })

/-- Termination measure for the decode loops: one unit for an occupied
pushback slot plus the number of unread bytes. Every successful read strictly
decreases it. -/
def TrackParser.fuel (p : TrackParser) : Nat :=
  (if p.pushback = -1 then 0 else 1) + (p.reader.data.length - p.reader.pos)

/-- Sequencing for the state-threading decoder operations (the embedding of
Rust's `?` on `&mut self` methods): on error the current state is kept and
the error is propagated. -/
def pbind {α β : Type} (x : Except MIDIParseError α × TrackParser)
    (f : α → TrackParser → Except MIDIParseError β × TrackParser) :
    Except MIDIParseError β × TrackParser :=
  match x with
  | (.ok a, p) => f a p
  | (.error e, p) => (.error e, p)

theorem TrackParser.read_ok_fuel {p : TrackParser} {b : Nat} {q : TrackParser}
    (h : p.read = (.ok b, q)) : q.fuel < p.fuel := by
  unfold TrackParser.read at h
  split at h
  · next hpb =>
    cases h
    simp only [TrackParser.fuel, if_neg hpb]
    simp
  · next hpb =>
    simp only [Reader.read] at h
    rcases hg : p.reader.data[p.reader.pos]? with - | b'
    · rw [hg] at h
      cases h
    · rw [hg] at h
      cases h
      have hlt : p.reader.pos < p.reader.data.length := by
        by_contra hge
        rw [List.getElem?_eq_none (by omega)] at hg
        cases hg
      simp only [TrackParser.fuel]
      simp only [ne_eq, not_not] at hpb
      simp [hpb]
      omega

theorem TrackParser.read_fast_ok_fuel {p : TrackParser} {b : Nat} {q : TrackParser}
    (h : p.read_fast = (.ok b, q)) : q.fuel < p.fuel := by
  unfold TrackParser.read_fast at h
  simp only [Reader.read] at h
  rcases hg : p.reader.data[p.reader.pos]? with - | b'
  · rw [hg] at h
    cases h
  · rw [hg] at h
    cases h
    have hlt : p.reader.pos < p.reader.data.length := by
      by_contra hge
      rw [List.getElem?_eq_none (by omega)] at hg
      cases hg
    simp only [TrackParser.fuel]
    omega

/-- Embedding of `TrackParser::read_var_length` (track_parser.rs lines 63-73):
the accumulator is a `u64`, so the shift is truncated at 64 bits. -/
def readVarLengthAux (p : TrackParser) (n : Nat) : Except MIDIParseError Nat × TrackParser :=
  match h : p.read with
  | (.ok byte, p') =>
    let m := ((n <<< 7) % (2 ^ 64)) ||| (byte &&& 0x7F)
    if byte &&& 0x80 = 0 then (.ok m, p') else readVarLengthAux p' m
  | (.error e, p') => (.error e, p')
termination_by p.fuel
decreasing_by
  exact TrackParser.read_ok_fuel h

/-- Entry point of `read_var_length`: the accumulator starts at 0. -/
def TrackParser.read_var_length (p : TrackParser) : Except MIDIParseError Nat × TrackParser :=
  readVarLengthAux p 0

/-- Embedding of the `for _ in 0..size { data.push(self.read_fast()?) }`
loops of `try_parse_next_event`: read `size` bytes with `read_fast`. -/
def readData (p : TrackParser) : Nat → Except MIDIParseError (List Nat) × TrackParser
  | 0 => (.ok [], p)
  | k + 1 =>
    pbind p.read_fast fun b p1 =>
      pbind (readData p1 k) fun bs p2 => (.ok (b :: bs), p2)

/-- Embedding of the `assert_len!` macro of `try_parse_next_event`
(track_parser.rs lines 82-91): read the declared length byte and fail with
`CorruptEvent` (current track number and byte offset) unless it equals the
expected fixed size. -/
def assertLen (p : TrackParser) (size : Nat) : Except MIDIParseError Unit × TrackParser :=
  pbind p.read_fast fun len p1 =>
    if len ≠ size then
      (.error (.corruptEvent p1.reader.track_number p1.reader.pos), p1)
    else
      (.ok (), p1)

/-- Embedding of the status-byte step of `try_parse_next_event`
(track_parser.rs lines 94-99): read a candidate status byte; if its high bit
is clear, store it back into the pushback slot and substitute the remembered
running status, otherwise persist it as the new running status. Returns the
effective status. -/
def TrackParser.readCommand (p : TrackParser) : Except MIDIParseError Nat × TrackParser :=
  pbind p.read fun command p1 =>
    if command < 0x80 then
      (.ok p1.prev_command, { p1 with pushback := (command : Int), prev_command := p1.prev_command })
    else
      (.ok command, { p1 with prev_command := command })

/-- Embedding of `TrackParser::try_parse_next_event` (track_parser.rs lines
75-273): decode the delta-time, resolve the effective status byte (running
status), then branch on the status high nibble for channel-voice messages or
on the full byte for the 0xF0 range; the nested Rust `match` arms (including
the `0x01..=0x0A | 0xF7` range pattern) are written as an if-chain in source
order. The result is `some` decoded item, or `none` for a consumed
End-of-Track meta, or a decode error. -/
def TrackParser.tryParseNextEvent (p : TrackParser) :
    Except MIDIParseError (Option (Delta Event)) × TrackParser :=
  pbind p.read_var_length fun delta p1 =>
  pbind p1.readCommand fun command p2 =>
  let comm := command &&& 0xF0
  if comm = 0x80 then
    pbind p2.read fun key p3 =>
    pbind p3.read_fast fun _vel p4 =>
    (.ok (some ⟨delta, .noteOff (command &&& 0x0F) key⟩), p4)
  else if comm = 0x90 then
    pbind p2.read fun key p3 =>
    pbind p3.read_fast fun vel p4 =>
    if vel = 0 then
      (.ok (some ⟨delta, .noteOff (command &&& 0x0F) key⟩), p4)
    else
      (.ok (some ⟨delta, .noteOn (command &&& 0x0F) key vel⟩), p4)
  else if comm = 0xA0 then
    pbind p2.read fun key p3 =>
    pbind p3.read_fast fun vel p4 =>
    (.ok (some ⟨delta, .polyphonicKeyPressure (command &&& 0x0F) key vel⟩), p4)
  else if comm = 0xB0 then
    pbind p2.read fun controller p3 =>
    pbind p3.read_fast fun value p4 =>
    (.ok (some ⟨delta, .controlChange (command &&& 0x0F) controller value⟩), p4)
  else if comm = 0xC0 then
    pbind p2.read fun program p3 =>
    (.ok (some ⟨delta, .programChange (command &&& 0x0F) program⟩), p3)
  else if comm = 0xD0 then
    pbind p2.read fun pressure p3 =>
    (.ok (some ⟨delta, .channelPressure (command &&& 0x0F) pressure⟩), p3)
  else if comm = 0xE0 then
    pbind p2.read fun var1 p3 =>
    pbind p3.read_fast fun var2 p4 =>
    (.ok (some ⟨delta, .pitchWheelChange (command &&& 0x0F)
      ((((var2 <<< 7) ||| var1 : Nat) : Int) - 8192)⟩), p4)
  else if command = 0xF0 then
    pbind p2.read_var_length fun size p3 =>
    pbind (readData p3 size) fun data p4 =>
    (.ok (some ⟨delta, .systemExclusive data⟩), p4)
  else if command = 0xF2 then
    pbind p2.read fun var1 p3 =>
    pbind p3.read_fast fun var2 p4 =>
    (.ok (some ⟨delta, .songPositionPointer (((var2 <<< 7) ||| var1) % (2 ^ 16))⟩), p4)
  else if command = 0xF3 then
    pbind p2.read fun value p3 =>
    (.ok (some ⟨delta, .songSelect value⟩), p3)
  else if command = 0xF6 then
    (.ok (some ⟨delta, .tuneRequest⟩), p2)
  else if command = 0xF7 then
    (.ok (some ⟨delta, .endOfExclusive⟩), p2)
  else if command = 0xF8 then
    (.ok (some ⟨delta, .endOfExclusive⟩), p2)
  else if command = 0xFF then
    pbind p2.read fun mcommand p3 =>
    if mcommand = 0x00 then
      pbind (assertLen p3 2) fun _ p4 =>
      (.ok (some ⟨delta, .trackStart⟩), p4)
    else if (1 ≤ mcommand ∧ mcommand ≤ 0x0A) ∨ mcommand = 0xF7 then
      pbind p3.read_var_length fun size p4 =>
      pbind (readData p4 size) fun data p5 =>
      (.ok (some ⟨delta, .text mcommand data⟩), p5)
    else if mcommand = 0x20 then
      pbind (assertLen p3 1) fun _ p4 =>
      pbind p4.read_fast fun pfx p5 =>
      (.ok (some ⟨delta, .channelPrefixEvent pfx⟩), p5)
    else if mcommand = 0x21 then
      pbind (assertLen p3 1) fun _ p4 =>
      pbind p4.read_fast fun port p5 =>
      (.ok (some ⟨delta, .midiPort port⟩), p5)
    else if mcommand = 0x2F then
      pbind (assertLen p3 0) fun _ p4 =>
      (.ok none, p4)
    else if mcommand = 0x51 then
      pbind (assertLen p3 3) fun _ p4 =>
      pbind (readData p4 3) fun bs p5 =>
      (.ok (some ⟨delta, .tempo (bs.foldl (fun t b => ((t <<< 8) % (2 ^ 32)) ||| b) 0)⟩), p5)
    else if mcommand = 0x54 then
      pbind (assertLen p3 5) fun _ p4 =>
      pbind p4.read_fast fun hr p5 =>
      pbind p5.read_fast fun mn p6 =>
      pbind p6.read_fast fun se p7 =>
      pbind p7.read_fast fun fr p8 =>
      pbind p8.read_fast fun ff p9 =>
      (.ok (some ⟨delta, .smpteOffset hr mn se fr ff⟩), p9)
    else if mcommand = 0x58 then
      pbind (assertLen p3 4) fun _ p4 =>
      pbind p4.read_fast fun nn p5 =>
      pbind p5.read_fast fun dd p6 =>
      pbind p6.read_fast fun cc p7 =>
      pbind p7.read_fast fun bb p8 =>
      (.ok (some ⟨delta, .timeSignature nn dd cc bb⟩), p8)
    else if mcommand = 0x59 then
      pbind (assertLen p3 2) fun _ p4 =>
      pbind p4.read_fast fun sf p5 =>
      pbind p5.read_fast fun mi p6 =>
      (.ok (some ⟨delta, .keySignature sf mi⟩), p6)
    else
      pbind p3.read_var_length fun size p4 =>
      pbind (readData p4 size) fun data p5 =>
      (.ok (some ⟨delta, .unknownMeta mcommand data⟩), p5)
  else
    (.ok (some ⟨delta, .undefined command⟩), p2)

/-- State evolution facts shared by every successful decoder operation:
fuel does not increase, the underlying track data, track number, errored flag
and running status are unchanged. -/
def StepOk (p q : TrackParser) : Prop :=
  q.fuel ≤ p.fuel ∧ q.reader.data = p.reader.data ∧
  q.reader.track_number = p.reader.track_number ∧ q.errored = p.errored ∧
  q.prev_command = p.prev_command

theorem stepOk_refl {p : TrackParser} : StepOk p p :=
  ⟨le_refl _, Eq.refl _, Eq.refl _, Eq.refl _, Eq.refl _⟩

theorem StepOk.trans {p q r : TrackParser} (h1 : StepOk p q) (h2 : StepOk q r) : StepOk p r :=
  ⟨le_trans h2.1 h1.1, h2.2.1.trans h1.2.1, h2.2.2.1.trans h1.2.2.1,
   h2.2.2.2.1.trans h1.2.2.2.1, h2.2.2.2.2.trans h1.2.2.2.2⟩

theorem read_ok_step {p : TrackParser} {b : Nat} {q : TrackParser}
    (h : p.read = (.ok b, q)) : StepOk p q ∧ q.fuel < p.fuel := by
  have hf := TrackParser.read_ok_fuel h
  refine ⟨⟨le_of_lt hf, ?_, ?_, ?_, ?_⟩, hf⟩ <;>
    · unfold TrackParser.read at h
      split at h
      · cases h; rfl
      · simp only [Reader.read] at h
        rcases hg : p.reader.data[p.reader.pos]? with - | b'
        · rw [hg] at h; cases h
        · rw [hg] at h; cases h; rfl

theorem read_fast_ok_step {p : TrackParser} {b : Nat} {q : TrackParser}
    (h : p.read_fast = (.ok b, q)) : StepOk p q ∧ q.fuel < p.fuel := by
  have hf := TrackParser.read_fast_ok_fuel h
  refine ⟨⟨le_of_lt hf, ?_, ?_, ?_, ?_⟩, hf⟩ <;>
    · unfold TrackParser.read_fast at h
      simp only [Reader.read] at h
      rcases hg : p.reader.data[p.reader.pos]? with - | b'
      · rw [hg] at h; cases h
      · rw [hg] at h; cases h; rfl

theorem read_ok_byte_lt {p : TrackParser} {b : Nat} {q : TrackParser}
    (h : p.read = (.ok b, q)) (hwf : p.reader.wfBytes) : b < 256 := by
  unfold TrackParser.read at h
  split at h
  · cases h
    have h0 : (0 : Int) < 256 := by norm_num
    have hnn := Int.emod_nonneg p.pushback (by norm_num : (256 : Int) ≠ 0)
    have hlt := Int.emod_lt_of_pos p.pushback h0
    omega
  · simp only [Reader.read] at h
    rcases hg : p.reader.data[p.reader.pos]? with - | b'
    · rw [hg] at h; cases h
    · rw [hg] at h; cases h
      exact hwf _ (List.getElem?_mem hg)

theorem readVarLengthAux_eq (p : TrackParser) (n : Nat) :
    readVarLengthAux p n =
      match p.read with
      | (.ok byte, p') =>
        if byte &&& 0x80 = 0 then (.ok (((n <<< 7) % (2 ^ 64)) ||| (byte &&& 0x7F)), p')
        else readVarLengthAux p' (((n <<< 7) % (2 ^ 64)) ||| (byte &&& 0x7F))
      | (.error e, p') => (.error e, p') := by
  rw [readVarLengthAux.eq_def]
  rcases hr : p.read with ⟨res, p'⟩
  rcases res with e | byte
  · split
    · next byte' q' hr' => cases hr'
    · next e' q' hr' => cases hr'; rfl
  · split
    · next byte' q' hr' => cases hr'; rfl
    · next e' q' hr' => cases hr'

theorem readVarLengthAux_ok_step {p : TrackParser} {n m : Nat} {q : TrackParser}
    (h : readVarLengthAux p n = (.ok m, q)) : StepOk p q ∧ q.fuel < p.fuel := by
  induction p, n using readVarLengthAux.induct with
  | case1 p n byte p' hr hstop =>
    rw [readVarLengthAux_eq, hr] at h
    dsimp only at h
    rw [if_pos hstop] at h
    cases h
    exact read_ok_step hr
  | case2 p n byte p' hr m' hstop ih =>
    rw [readVarLengthAux_eq, hr] at h
    dsimp only at h
    rw [if_neg hstop] at h
    have h2 := ih h
    have h1 := read_ok_step hr
    exact ⟨h1.1.trans h2.1, lt_of_lt_of_le h2.2 (le_of_lt h1.2)⟩
  | case3 p n e p' hr =>
    rw [readVarLengthAux_eq, hr] at h
    dsimp only at h
    cases h

theorem read_var_length_ok_step {p : TrackParser} {m : Nat} {q : TrackParser}
    (h : p.read_var_length = (.ok m, q)) : StepOk p q ∧ q.fuel < p.fuel :=
  readVarLengthAux_ok_step h

theorem pbind_ok {α β : Type} {x : Except MIDIParseError α × TrackParser}
    {f : α → TrackParser → Except MIDIParseError β × TrackParser} {b : β} {q : TrackParser}
    (h : pbind x f = (.ok b, q)) :
    ∃ a r, x = (.ok a, r) ∧ f a r = (.ok b, q) := by
  rcases x with ⟨res, s⟩
  rcases res with e | a
  · simp only [pbind] at h
    cases h
  · exact ⟨a, s, rfl, h⟩

theorem readData_ok_step {k : Nat} : ∀ {p : TrackParser} {bs : List Nat} {q : TrackParser},
    readData p k = (.ok bs, q) → StepOk p q := by
  induction k with
  | zero =>
    intro p bs q h
    rw [readData] at h
    cases h
    exact stepOk_refl
  | succ k ih =>
    intro p bs q h
    rw [readData] at h
    obtain ⟨b, p1, h1, h⟩ := pbind_ok h
    obtain ⟨bs', p2, h2, h⟩ := pbind_ok h
    cases h
    exact ((read_fast_ok_step h1).1.trans (ih h2))

theorem assertLen_ok_step {p : TrackParser} {u : Unit} {s : Nat} {q : TrackParser}
    (h : assertLen p s = (.ok u, q)) : StepOk p q ∧ q.fuel < p.fuel := by
  unfold assertLen at h
  obtain ⟨len, p1, h1, h⟩ := pbind_ok h
  split at h
  · cases h
  · cases h
    exact read_fast_ok_step h1

theorem read_ok_pushback {p : TrackParser} {b : Nat} {q : TrackParser}
    (h : p.read = (.ok b, q)) : q.pushback = -1 := by
  unfold TrackParser.read at h
  split at h
  · cases h; rfl
  · next hpb =>
    simp only [ne_eq, not_not] at hpb
    simp only [Reader.read] at h
    rcases hg : p.reader.data[p.reader.pos]? with - | b'
    · rw [hg] at h; cases h
    · rw [hg] at h; cases h
      exact hpb

theorem readCommand_ok_step {p : TrackParser} {c : Nat} {q : TrackParser}
    (h : p.readCommand = (.ok c, q)) :
    q.fuel ≤ p.fuel ∧ q.reader.data = p.reader.data ∧
    q.reader.track_number = p.reader.track_number ∧ q.errored = p.errored ∧
    q.prev_command = c ∧
    (c = p.prev_command ∨ (0x80 ≤ c ∧ (p.reader.wfBytes → c < 256))) := by
  unfold TrackParser.readCommand at h
  obtain ⟨b, p1, h1, h⟩ := pbind_ok h
  have hs := read_ok_step h1
  have hpb := read_ok_pushback h1
  split at h
  · next hlt =>
    cases h
    have hqf : TrackParser.fuel
        { p1 with pushback := (b : Int), prev_command := p1.prev_command } = p1.fuel + 1 := by
      have hne : ¬((b : Int) = -1) := by omega
      simp only [TrackParser.fuel, hpb]
      simp [hne]
      omega
    refine ⟨by rw [hqf]; have := hs.2; omega, hs.1.2.1, hs.1.2.2.1,
      hs.1.2.2.2.1, Eq.refl _, Or.inl hs.1.2.2.2.2⟩
  · next hge =>
    cases h
    refine ⟨le_of_lt hs.2, hs.1.2.1, hs.1.2.2.1,
      hs.1.2.2.2.1, Eq.refl _, ?_⟩
    right
    exact ⟨by omega, fun hwf => read_ok_byte_lt h1 hwf⟩

theorem Reader.wfBytes_of_data_eq {a b : Reader} (h : a.data = b.data)
    (hwf : b.wfBytes) : a.wfBytes := by
  intro x hx
  exact hwf x (h ▸ hx)

theorem tryParse_ok_spec {p : TrackParser} {x : Option (Delta Event)} {q : TrackParser}
    (h : p.tryParseNextEvent = (.ok x, q)) :
    q.fuel < p.fuel ∧ q.reader.data = p.reader.data ∧
    q.reader.track_number = p.reader.track_number ∧ q.errored = p.errored ∧
    (q.prev_command = p.prev_command ∨
      (0x80 ≤ q.prev_command ∧ (p.reader.wfBytes → q.prev_command < 256))) := by
  unfold TrackParser.tryParseNextEvent at h
  obtain ⟨delta, p1, h1, h⟩ := pbind_ok h
  obtain ⟨command, p2, h2, h⟩ := pbind_ok h
  dsimp only at h
  have hv := read_var_length_ok_step h1
  have hc := readCommand_ok_step h2
  suffices hs2 : StepOk p2 q by
    have hdata : q.reader.data = p.reader.data :=
      (hs2.2.1.trans hc.2.1).trans hv.1.2.1
    refine ⟨?_, hdata, (hs2.2.2.1.trans hc.2.2.1).trans hv.1.2.2.1,
      (hs2.2.2.2.1.trans hc.2.2.2.1).trans hv.1.2.2.2.1, ?_⟩
    · have := hs2.1
      have := hc.1
      have := hv.2
      omega
    · rcases hc.2.2.2.2.2 with hsame | ⟨hge, hlt⟩
      · left
        rw [hs2.2.2.2.2, hc.2.2.2.2.1, hsame, hv.1.2.2.2.2]
      · right
        refine ⟨by rw [hs2.2.2.2.2, hc.2.2.2.2.1]; exact hge, fun hwf => ?_⟩
        rw [hs2.2.2.2.2, hc.2.2.2.2.1]
        exact hlt (Reader.wfBytes_of_data_eq hv.1.2.1 hwf)
  clear h1 h2 hv hc
  by_cases e1 : command &&& 0xF0 = 0x80
  · rw [if_pos e1] at h
    obtain ⟨key, p3, h3, h⟩ := pbind_ok h
    obtain ⟨vel, p4, h4, h⟩ := pbind_ok h
    cases h
    exact (read_ok_step h3).1.trans (read_fast_ok_step h4).1
  rw [if_neg e1] at h
  by_cases e2 : command &&& 0xF0 = 0x90
  · rw [if_pos e2] at h
    obtain ⟨key, p3, h3, h⟩ := pbind_ok h
    obtain ⟨vel, p4, h4, h⟩ := pbind_ok h
    split at h <;>
      (cases h; exact (read_ok_step h3).1.trans (read_fast_ok_step h4).1)
  rw [if_neg e2] at h
  by_cases e3 : command &&& 0xF0 = 0xA0
  · rw [if_pos e3] at h
    obtain ⟨key, p3, h3, h⟩ := pbind_ok h
    obtain ⟨vel, p4, h4, h⟩ := pbind_ok h
    cases h
    exact (read_ok_step h3).1.trans (read_fast_ok_step h4).1
  rw [if_neg e3] at h
  by_cases e4 : command &&& 0xF0 = 0xB0
  · rw [if_pos e4] at h
    obtain ⟨controller, p3, h3, h⟩ := pbind_ok h
    obtain ⟨value, p4, h4, h⟩ := pbind_ok h
    cases h
    exact (read_ok_step h3).1.trans (read_fast_ok_step h4).1
  rw [if_neg e4] at h
  by_cases e5 : command &&& 0xF0 = 0xC0
  · rw [if_pos e5] at h
    obtain ⟨program, p3, h3, h⟩ := pbind_ok h
    cases h
    exact (read_ok_step h3).1
  rw [if_neg e5] at h
  by_cases e6 : command &&& 0xF0 = 0xD0
  · rw [if_pos e6] at h
    obtain ⟨pressure, p3, h3, h⟩ := pbind_ok h
    cases h
    exact (read_ok_step h3).1
  rw [if_neg e6] at h
  by_cases e7 : command &&& 0xF0 = 0xE0
  · rw [if_pos e7] at h
    obtain ⟨var1, p3, h3, h⟩ := pbind_ok h
    obtain ⟨var2, p4, h4, h⟩ := pbind_ok h
    cases h
    exact (read_ok_step h3).1.trans (read_fast_ok_step h4).1
  rw [if_neg e7] at h
  by_cases e8 : command = 0xF0
  · rw [if_pos e8] at h
    obtain ⟨size, p3, h3, h⟩ := pbind_ok h
    obtain ⟨data, p4, h4, h⟩ := pbind_ok h
    cases h
    exact (read_var_length_ok_step h3).1.trans (readData_ok_step h4)
  rw [if_neg e8] at h
  by_cases e9 : command = 0xF2
  · rw [if_pos e9] at h
    obtain ⟨var1, p3, h3, h⟩ := pbind_ok h
    obtain ⟨var2, p4, h4, h⟩ := pbind_ok h
    cases h
    exact (read_ok_step h3).1.trans (read_fast_ok_step h4).1
  rw [if_neg e9] at h
  by_cases e10 : command = 0xF3
  · rw [if_pos e10] at h
    obtain ⟨value, p3, h3, h⟩ := pbind_ok h
    cases h
    exact (read_ok_step h3).1
  rw [if_neg e10] at h
  by_cases e11 : command = 0xF6
  · rw [if_pos e11] at h
    cases h
    exact stepOk_refl
  rw [if_neg e11] at h
  by_cases e12 : command = 0xF7
  · rw [if_pos e12] at h
    cases h
    exact stepOk_refl
  rw [if_neg e12] at h
  by_cases e13 : command = 0xF8
  · rw [if_pos e13] at h
    cases h
    exact stepOk_refl
  rw [if_neg e13] at h
  by_cases e14 : command = 0xFF
  · rw [if_pos e14] at h
    obtain ⟨mcommand, p3, h3, h⟩ := pbind_ok h
    have s3 := (read_ok_step h3).1
    by_cases m1 : mcommand = 0x00
    · rw [if_pos m1] at h
      obtain ⟨u, p4, h4, h⟩ := pbind_ok h
      cases h
      exact s3.trans (assertLen_ok_step h4).1
    rw [if_neg m1] at h
    by_cases m2 : (1 ≤ mcommand ∧ mcommand ≤ 0x0A) ∨ mcommand = 0xF7
    · rw [if_pos m2] at h
      obtain ⟨size, p4, h4, h⟩ := pbind_ok h
      obtain ⟨data, p5, h5, h⟩ := pbind_ok h
      cases h
      exact s3.trans ((read_var_length_ok_step h4).1.trans (readData_ok_step h5))
    rw [if_neg m2] at h
    by_cases m3 : mcommand = 0x20
    · rw [if_pos m3] at h
      obtain ⟨u, p4, h4, h⟩ := pbind_ok h
      obtain ⟨pfx, p5, h5, h⟩ := pbind_ok h
      cases h
      exact s3.trans ((assertLen_ok_step h4).1.trans (read_fast_ok_step h5).1)
    rw [if_neg m3] at h
    by_cases m4 : mcommand = 0x21
    · rw [if_pos m4] at h
      obtain ⟨u, p4, h4, h⟩ := pbind_ok h
      obtain ⟨port, p5, h5, h⟩ := pbind_ok h
      cases h
      exact s3.trans ((assertLen_ok_step h4).1.trans (read_fast_ok_step h5).1)
    rw [if_neg m4] at h
    by_cases m5 : mcommand = 0x2F
    · rw [if_pos m5] at h
      obtain ⟨u, p4, h4, h⟩ := pbind_ok h
      cases h
      exact s3.trans (assertLen_ok_step h4).1
    rw [if_neg m5] at h
    by_cases m6 : mcommand = 0x51
    · rw [if_pos m6] at h
      obtain ⟨u, p4, h4, h⟩ := pbind_ok h
      obtain ⟨bs, p5, h5, h⟩ := pbind_ok h
      cases h
      exact s3.trans ((assertLen_ok_step h4).1.trans (readData_ok_step h5))
    rw [if_neg m6] at h
    by_cases m7 : mcommand = 0x54
    · rw [if_pos m7] at h
      obtain ⟨u, p4, h4, h⟩ := pbind_ok h
      obtain ⟨hr, p5, h5, h⟩ := pbind_ok h
      obtain ⟨mn, p6, h6, h⟩ := pbind_ok h
      obtain ⟨se, p7, h7, h⟩ := pbind_ok h
      obtain ⟨fr, p8, h8, h⟩ := pbind_ok h
      obtain ⟨ff, p9, h9, h⟩ := pbind_ok h
      cases h
      exact s3.trans ((assertLen_ok_step h4).1.trans
        ((read_fast_ok_step h5).1.trans ((read_fast_ok_step h6).1.trans
          ((read_fast_ok_step h7).1.trans ((read_fast_ok_step h8).1.trans
            (read_fast_ok_step h9).1)))))
    rw [if_neg m7] at h
    by_cases m8 : mcommand = 0x58
    · rw [if_pos m8] at h
      obtain ⟨u, p4, h4, h⟩ := pbind_ok h
      obtain ⟨nn, p5, h5, h⟩ := pbind_ok h
      obtain ⟨dd, p6, h6, h⟩ := pbind_ok h
      obtain ⟨cc, p7, h7, h⟩ := pbind_ok h
      obtain ⟨bb, p8, h8, h⟩ := pbind_ok h
      cases h
      exact s3.trans ((assertLen_ok_step h4).1.trans
        ((read_fast_ok_step h5).1.trans ((read_fast_ok_step h6).1.trans
          ((read_fast_ok_step h7).1.trans (read_fast_ok_step h8).1))))
    rw [if_neg m8] at h
    by_cases m9 : mcommand = 0x59
    · rw [if_pos m9] at h
      obtain ⟨u, p4, h4, h⟩ := pbind_ok h
      obtain ⟨sf, p5, h5, h⟩ := pbind_ok h
      obtain ⟨mi, p6, h6, h⟩ := pbind_ok h
      cases h
      exact s3.trans ((assertLen_ok_step h4).1.trans
        ((read_fast_ok_step h5).1.trans (read_fast_ok_step h6).1))
    rw [if_neg m9] at h
    obtain ⟨size, p4, h4, h⟩ := pbind_ok h
    obtain ⟨data, p5, h5, h⟩ := pbind_ok h
    cases h
    exact s3.trans ((read_var_length_ok_step h4).1.trans (readData_ok_step h5))
  rw [if_neg e14] at h
  cases h
  exact stepOk_refl

/-- Embedding of the `Iterator for TrackParser` implementation
(track_parser.rs lines 276-300): stop when errored or at the end of data;
skipped events (`Ok(None)`, i.e. End-of-Track) loop to fetch the next event;
a decode error sets the sticky `errored` flag and is yielded. -/
def TrackParser.next (p : TrackParser) :
    Option (Except MIDIParseError (Delta Event)) × TrackParser :=
  if p.errored || p.reader.isAtEnd then (none, p)
  else
    match h : p.tryParseNextEvent with
    | (.ok (some event), p') => (some (.ok event), p')
    | (.ok none, p') => p'.next
    | (.error e, p') => (some (.error e), { p' with errored := true })
termination_by p.fuel
decreasing_by exact (tryParse_ok_spec h).1

theorem next_eq (p : TrackParser) :
    p.next =
      if p.errored || p.reader.isAtEnd then (none, p)
      else
        match p.tryParseNextEvent with
        | (.ok (some event), p') => (some (.ok event), p')
        | (.ok none, p') => p'.next
        | (.error e, p') => (some (.error e), { p' with errored := true }) := by
  rw [TrackParser.next.eq_def]
  by_cases hstop : (p.errored || p.reader.isAtEnd) = true
  · rw [if_pos hstop, if_pos hstop]
  · rw [if_neg hstop, if_neg hstop]
    rcases ht : p.tryParseNextEvent with ⟨res, p'⟩
    rcases res with e | x
    · split
      · next h' => cases h'
      · next h' => cases h'
      · next h' => cases h'; rfl
    · rcases x with - | ev
      · split
        · next h' => cases h'
        · next h' => cases h'; rfl
        · next h' => cases h'
      · split
        · next h' => cases h'; rfl
        · next h' => cases h'
        · next h' => cases h'

theorem next_eq_stop {p : TrackParser} (h : p.errored = true ∨ p.reader.isAtEnd = true) :
    p.next = (none, p) := by
  rw [next_eq, if_pos (by rcases h with h | h <;> simp [h])]

theorem next_eq_some {p : TrackParser} {ev : Delta Event} {q : TrackParser}
    (h1 : p.errored = false) (h2 : p.reader.isAtEnd = false)
    (h : p.tryParseNextEvent = (.ok (some ev), q)) :
    p.next = (some (.ok ev), q) := by
  rw [next_eq, if_neg (by simp [h1, h2]), h]

theorem next_eq_skip {p : TrackParser} {q : TrackParser}
    (h1 : p.errored = false) (h2 : p.reader.isAtEnd = false)
    (h : p.tryParseNextEvent = (.ok none, q)) :
    p.next = q.next := by
  rw [next_eq, if_neg (by simp [h1, h2]), h]

theorem next_eq_error {p : TrackParser} {e : MIDIParseError} {q : TrackParser}
    (h1 : p.errored = false) (h2 : p.reader.isAtEnd = false)
    (h : p.tryParseNextEvent = (.error e, q)) :
    p.next = (some (.error e), { q with errored := true }) := by
  rw [next_eq, if_neg (by simp [h1, h2]), h]

theorem next_ok_fuel {p : TrackParser} {it : Delta Event} {q : TrackParser}
    (h : p.next = (some (.ok it), q)) : q.fuel < p.fuel := by
  induction p using TrackParser.next.induct with
  | case1 p hstop =>
    rw [next_eq, if_pos hstop] at h
    cases h
  | case2 p hstop ev p' ht =>
    rw [next_eq, if_neg hstop, ht] at h
    cases h
    exact (tryParse_ok_spec ht).1
  | case3 p hstop p' ht ih =>
    rw [next_eq, if_neg hstop, ht] at h
    exact lt_trans (ih h) (tryParse_ok_spec ht).1
  | case4 p hstop e p' ht =>
    rw [next_eq, if_neg hstop, ht] at h
    cases h

/-- Iterating the decoder to exhaustion: the list of all items the Rust
iterator yields before returning `None`. An error item is final: once yielded
the sticky `errored` flag makes every further `next` return `None`
(`next_eq_stop`), so collection stops there. -/
def runParser (p : TrackParser) : List (Except MIDIParseError (Delta Event)) :=
  match h : p.next with
  | (none, _) => []
  | (some (.error e), _) => [.error e]
  | (some (.ok it), p') => .ok it :: runParser p'
termination_by p.fuel
decreasing_by exact next_ok_fuel h

theorem runParser_eq (p : TrackParser) :
    runParser p =
      match p.next with
      | (none, _) => []
      | (some (.error e), _) => [.error e]
      | (some (.ok it), p') => .ok it :: runParser p' := by
  rw [runParser.eq_def]
  rcases hn : p.next with ⟨res, p'⟩
  rcases res with - | it
  · split
    · next h' => cases h'; rfl
    · next h' => cases h'
    · next h' => cases h'
  · rcases it with e | v
    · split
      · next h' => cases h'
      · next h' => cases h'; rfl
      · next h' => cases h'
    · split
      · next h' => cases h'
      · next h' => cases h'
      · next h' => cases h'; rfl

theorem next_error_state {p : TrackParser} {e : MIDIParseError} {q : TrackParser}
    (h : p.next = (some (.error e), q)) : q.errored = true := by
  induction p using TrackParser.next.induct with
  | case1 p hstop =>
    rw [next_eq, if_pos hstop] at h
    cases h
  | case2 p hstop ev p' ht =>
    rw [next_eq, if_neg hstop, ht] at h
    cases h
  | case3 p hstop p' ht ih =>
    rw [next_eq, if_neg hstop, ht] at h
    exact ih h
  | case4 p hstop e' p' ht =>
    rw [next_eq, if_neg hstop, ht] at h
    cases h
    rfl

/-- The collected iteration agrees with the plain iterator protocol: yield
every `next` item until `None`. (For an error item this needs the sticky-flag
behaviour: the state after an error yields nothing further.) -/
theorem runParser_eq_protocol (p : TrackParser) :
    runParser p =
      match p.next with
      | (none, _) => []
      | (some it, p') => it :: runParser p' := by
  rw [runParser_eq]
  rcases hn : p.next with ⟨res, p'⟩
  rcases res with - | it
  · rfl
  · rcases it with e | v
    · have hq : runParser p' = [] := by
        rw [runParser_eq, next_eq_stop (Or.inl (next_error_state hn))]
      dsimp only
      rw [hq]
    · rfl

/-- Concrete note type for witnesses: a (start time, payload tag) pair whose
start time is the first component. -/
instance : MIDINote Nat (Nat × Nat) :=
  ⟨Prod.fst⟩

/-- Expected payload size of the fixed-layout meta sub-types (the
`assert_len!` table of track_parser.rs lines 192-256), used to state the
fixed-length-mismatch claim. -/
def metaFixedLen : Nat → Option Nat
  | 0x00 => some 2
  | 0x20 => some 1
  | 0x21 => some 1
  | 0x2F => some 0
  | 0x51 => some 3
  | 0x54 => some 5
  | 0x58 => some 4
  | 0x59 => some 2
  | _ => none

/-! ## Merger: characterisation lemmas -/

theorem mergeGo_none_nil : mergeGo (T := T) (N := N) (E := E) [] none = some [] := by
  rw [mergeGo.eq_def]

theorem mergeGo_none_cons (c : SeqTime T N E) (cs : List (SeqTime T N E)) :
    mergeGo (c :: cs) none =
      mergeGo (c :: cs) (some (findSmallestAux ((c :: cs).map SeqTime.time) 0 0 c.time)) := by
  rw [mergeGo.eq_def]

theorem mergeGo_drain_last (seqs : List (SeqTime T N E)) (si : Nat) (st : T)
    (c : SeqTime T N E) (note : N)
    (hc : seqs[si]? = some c) (hn : c.next = some note) (hi : c.iter = []) :
    mergeGo seqs (some (si, st)) =
      Option.map (fun out => Except.ok note :: out) (mergeGo (seqs.eraseIdx si) none) := by
  rw [mergeGo.eq_def]
  dsimp only
  split
  · simp_all
  · next c' hc' =>
    rw [hc] at hc'
    cases hc'
    split
    · simp_all
    · next note' hn' =>
      rw [hn] at hn'
      cases hn'
      split
      · rfl
      · simp_all
      · simp_all

theorem mergeGo_drain_err (seqs : List (SeqTime T N E)) (si : Nat) (st : T)
    (c : SeqTime T N E) (note : N) (e : E) (tl : List (Except E N))
    (hc : seqs[si]? = some c) (hn : c.next = some note) (hi : c.iter = Except.error e :: tl) :
    mergeGo seqs (some (si, st)) = some [Except.ok note, Except.error e] := by
  rw [mergeGo.eq_def]
  dsimp only
  split
  · simp_all
  · next c' hc' =>
    rw [hc] at hc'
    cases hc'
    split
    · simp_all
    · next note' hn' =>
      rw [hn] at hn'
      cases hn'
      split
      · simp_all
      · next e' tl' hi' =>
        rw [hi] at hi'
        cases hi'
        rfl
      · simp_all

theorem mergeGo_drain_ok (seqs : List (SeqTime T N E)) (si : Nat) (st : T)
    (c : SeqTime T N E) (note n : N) (rest : List (Except E N))
    (hc : seqs[si]? = some c) (hn : c.next = some note) (hi : c.iter = Except.ok n :: rest) :
    mergeGo seqs (some (si, st)) =
      if MIDINote.start n ≠ st then
        Option.map (fun out => Except.ok note :: out)
          (mergeGo (seqs.set si ⟨rest, MIDINote.start n, some n⟩) none)
      else
        Option.map (fun out => Except.ok note :: out)
          (mergeGo (seqs.set si ⟨rest, MIDINote.start n, some n⟩) (some (si, st))) := by
  rw [mergeGo.eq_def]
  dsimp only
  split
  · simp_all
  · next c' hc' =>
    rw [hc] at hc'
    cases hc'
    split
    · simp_all
    · next note' hn' =>
      rw [hn] at hn'
      cases hn'
      split
      · simp_all
      · simp_all
      · next n' rest' hi' =>
        rw [hi] at hi'
        cases hi'
        rfl

theorem mergeGo_drain_eq (seqs : List (SeqTime T N E)) (p : Nat × T) :
    mergeGo seqs (some p) =
      match seqs[p.1]? with
      | none => none
      | some c =>
        match c.next with
        | none => none
        | some note =>
          match c.iter with
          | [] => Option.map (fun out => Except.ok note :: out) (mergeGo (seqs.eraseIdx p.1) none)
          | .error e :: _ => some [Except.ok note, Except.error e]
          | .ok n :: rest =>
            if MIDINote.start n ≠ p.2 then
              Option.map (fun out => Except.ok note :: out)
                (mergeGo (seqs.set p.1 ⟨rest, MIDINote.start n, some n⟩) none)
            else
              Option.map (fun out => Except.ok note :: out)
                (mergeGo (seqs.set p.1 ⟨rest, MIDINote.start n, some n⟩) (some (p.1, p.2))) := by
  obtain ⟨si, st⟩ := p
  rcases hc : seqs[si]? with - | c
  · rw [mergeGo.eq_def]
    dsimp only
    split <;> simp_all
  · rcases hn : c.next with - | note
    · rw [mergeGo.eq_def]
      dsimp only
      split
      · simp_all
      · next c' hc' =>
        rw [hc] at hc'
        cases hc'
        split <;> simp_all
    · rcases hi : c.iter with - | ⟨x, tl⟩
      · simp only [mergeGo_drain_last seqs si st c note hc hn hi]
        rw [hn, hi]
      · rcases x with e | n
        · simp only [mergeGo_drain_err seqs si st c note e tl hc hn hi]
          rw [hn, hi]
        · simp only [mergeGo_drain_ok seqs si st c note n tl hc hn hi]
          rw [hn, hi]

/-! ## Merger: the scan picks the first cursor with the minimal time -/

theorem findSmallestAux_spec (ts : List T) :
    ∀ (i si : Nat) (st : T),
      (findSmallestAux ts i si st = (si, st) ∧ ∀ t ∈ ts, st ≤ t) ∨
      (∃ k t, ts[k]? = some t ∧ findSmallestAux ts i si st = (i + k, t) ∧ t < st ∧
        (∀ t' ∈ ts, t ≤ t') ∧ (∀ j u, j < k → ts[j]? = some u → t < u)) := by
  induction ts with
  | nil =>
    intro i si st
    left
    exact ⟨rfl, by simp⟩
  | cons t rest ih =>
    intro i si st
    by_cases h : t < st
    · rw [findSmallestAux, if_pos h]
      rcases ih (i + 1) i t with ⟨heq, hmin⟩ | ⟨k, u, hk, heq, hlt, hmin, hstrict⟩
      · right
        refine ⟨0, t, by simp, by simpa using heq, h, ?_, by omega⟩
        intro t' ht'
        rcases List.mem_cons.mp ht' with h' | h'
        · exact le_of_eq h'.symm
        · exact hmin t' h'
      · right
        refine ⟨k + 1, u, by simpa using hk, by rw [heq]; congr 1; omega, lt_trans hlt h, ?_, ?_⟩
        · intro t' ht'
          rcases List.mem_cons.mp ht' with h' | h'
          · exact h' ▸ le_of_lt hlt
          · exact hmin t' h'
        · intro j v hj hv
          rcases j with - | j'
          · simp at hv
            exact hv ▸ hlt
          · exact hstrict j' v (by omega) (by simpa using hv)
    · rw [findSmallestAux, if_neg h]
      have hle : st ≤ t := le_of_not_lt h
      rcases ih (i + 1) si st with ⟨heq, hmin⟩ | ⟨k, u, hk, heq, hlt, hmin, hstrict⟩
      · left
        refine ⟨heq, ?_⟩
        intro t' ht'
        rcases List.mem_cons.mp ht' with h' | h'
        · exact h' ▸ hle
        · exact hmin t' h'
      · right
        refine ⟨k + 1, u, by simpa using hk, by rw [heq]; congr 1; omega, hlt, ?_, ?_⟩
        · intro t' ht'
          rcases List.mem_cons.mp ht' with h' | h'
          · exact h' ▸ le_of_lt (lt_of_lt_of_le hlt hle)
          · exact hmin t' h'
        · intro j v hj hv
          rcases j with - | j'
          · simp at hv
            exact hv ▸ lt_of_lt_of_le hlt hle
          · exact hstrict j' v (by omega) (by simpa using hv)

/-- Scan specification over a nonempty cursor list: the scan result indexes a
live cursor whose time is the returned minimum; that minimum is a lower bound
of all cursor times; and every cursor at a smaller index has a strictly
larger time (ties are broken towards the first-registered stream). -/
theorem findSmallest_spec (c : SeqTime T N E) (cs : List (SeqTime T N E)) :
    ∃ cm, (c :: cs)[(findSmallestAux ((c :: cs).map SeqTime.time) 0 0 c.time).1]? = some cm ∧
      cm.time = (findSmallestAux ((c :: cs).map SeqTime.time) 0 0 c.time).2 ∧
      (∀ c' ∈ c :: cs, (findSmallestAux ((c :: cs).map SeqTime.time) 0 0 c.time).2 ≤ c'.time) ∧
      (∀ j c', j < (findSmallestAux ((c :: cs).map SeqTime.time) 0 0 c.time).1 →
        (c :: cs)[j]? = some c' →
        (findSmallestAux ((c :: cs).map SeqTime.time) 0 0 c.time).2 < c'.time) := by
  rcases findSmallestAux_spec ((c :: cs).map SeqTime.time) 0 0 c.time with
    ⟨heq, hmin⟩ | ⟨k, u, hk, heq, hlt, hmin, hstrict⟩
  · refine ⟨c, ?_, ?_, ?_, ?_⟩
    · rw [heq]
      simp
    · rw [heq]
    · intro c' hc'
      rw [heq]
      exact hmin _ (List.mem_map_of_mem SeqTime.time hc')
    · intro j c' hj hc'
      rw [heq] at hj
      omega
  · rw [List.getElem?_map] at hk
    rcases hcm : (c :: cs)[k]? with - | cm
    · rw [hcm] at hk
      cases hk
    · rw [hcm] at hk
      refine ⟨cm, ?_, ?_, ?_, ?_⟩
      · rw [heq]
        simpa using hcm
      · rw [heq]
        simpa using hk
      · intro c' hc'
        rw [heq]
        exact hmin _ (List.mem_map_of_mem SeqTime.time hc')
      · intro j c' hj hc'
        rw [heq] at hj
        simp only at hj
        rw [heq]
        refine hstrict j c'.time (by omega) ?_
        rw [List.getElem?_map, hc']
        rfl

theorem filterMap_toOption_map_ok (ns : List N) :
    (ns.map Except.ok).filterMap (Except.toOption (ε := E)) = ns := by
  induction ns with
  | nil => rfl
  | cons a l ih => simp [ih, Except.toOption]

theorem getElem?_lt_length {α : Type} {l : List α} {i : Nat} {a : α}
    (h : l[i]? = some a) : i < l.length := by
  rcases List.getElem?_eq_some.mp h with ⟨hlt, -⟩
  exact hlt

theorem multiset_swap_cons {α : Type} (a : α) (s t : Multiset α) :
    t + (a ::ₘ s) = (a ::ₘ t) + s := by
  rw [add_comm t (a ::ₘ s), Multiset.cons_add, Multiset.cons_add, add_comm s t]

/-- Main correctness of the merge loop over good cursors: the output is all
`Ok`, sorted by start time, bounded below by any common lower bound of cursor
times, and is exactly the multiset union of the cursor contents. The drain
argument must point at a live cursor with the minimal time. -/
theorem mergeGo_spec (seqs : List (SeqTime T N E)) (drain : Option (Nat × T)) :
    (∀ c ∈ seqs, GoodCursor c) →
    (∀ si st, drain = some (si, st) → ∃ c, seqs[si]? = some c ∧ c.time = st ∧
        ∀ c' ∈ seqs, st ≤ c'.time) →
    ∃ notes : List N,
      mergeGo seqs drain = some (notes.map Except.ok) ∧
      sortedByStart (T := T) notes ∧
      (∀ t : T, (∀ c ∈ seqs, t ≤ c.time) → ∀ x ∈ notes, t ≤ MIDINote.start x) ∧
      ((notes : Multiset N)) = (seqs.map fun c => ((cursorNotes c : Multiset N))).sum := by
  induction seqs, drain using mergeGo.induct with
  | case1 =>
    intro hg hd
    exact ⟨[], by rw [mergeGo_none_nil]; rfl, by simp [sortedByStart], by simp, by simp⟩
  | case2 c cs ih =>
    intro hg hd
    obtain ⟨cm, hcm, hcmt, hcmin, -⟩ := findSmallest_spec c cs
    have hd' : ∀ si st,
        (some (findSmallestAux ((c :: cs).map SeqTime.time) 0 0 c.time) :
          Option (Nat × T)) = some (si, st) →
        ∃ c', (c :: cs)[si]? = some c' ∧ c'.time = st ∧ ∀ c'' ∈ c :: cs, st ≤ c''.time := by
      intro si st heq
      have heq' : findSmallestAux ((c :: cs).map SeqTime.time) 0 0 c.time = (si, st) :=
        Option.some.inj heq
      have hsi : (findSmallestAux ((c :: cs).map SeqTime.time) 0 0 c.time).1 = si := by
        rw [heq']
      have hst : (findSmallestAux ((c :: cs).map SeqTime.time) 0 0 c.time).2 = st := by
        rw [heq']
      refine ⟨cm, ?_, ?_, ?_⟩
      · rw [← hsi]
        exact hcm
      · rw [hcmt, hst]
      · intro c'' hc''
        rw [← hst]
        exact hcmin c'' hc''
    obtain ⟨notes, h1, h2, h3, h4⟩ := ih hg hd'
    exact ⟨notes, by rw [mergeGo_none_cons]; exact h1, h2, h3, h4⟩
  | case3 seqs si st hc =>
    intro hg hd
    obtain ⟨c', hc', -, -⟩ := hd si st (Eq.refl _)
    rw [hc] at hc'
    cases hc'
  | case4 seqs si st c hc hn =>
    intro hg hd
    obtain ⟨n, ns, hn', -⟩ := hg c (List.getElem?_mem hc)
    rw [hn] at hn'
    cases hn'
  | case5 seqs si st c hc note hn hi ih =>
    intro hg hd
    obtain ⟨c', hc', htime, hmin⟩ := hd si st (Eq.refl _)
    rw [hc] at hc'
    cases hc'
    obtain ⟨n0, ns, hn0, hiter, htime0, hchain⟩ := hg c (List.getElem?_mem hc)
    rw [hn] at hn0
    cases hn0
    have hns : ns = [] := by
      rw [hi] at hiter
      exact (List.map_eq_nil_iff.mp hiter.symm)
    have hg' : ∀ c'' ∈ seqs.eraseIdx si, GoodCursor c'' :=
      fun c'' hc'' => hg c'' (List.mem_of_mem_eraseIdx hc'')
    have hd' : ∀ si' st', (none : Option (Nat × T)) = some (si', st') → ∃ c'',
        (seqs.eraseIdx si)[si']? = some c'' ∧ c''.time = st' ∧
        ∀ c3 ∈ seqs.eraseIdx si, st' ≤ c3.time := by
      intro si' st' heq
      cases heq
    obtain ⟨notes', h1, h2, h3, h4⟩ := ih hg' hd'
    have hstart : MIDINote.start note = st := by rw [← htime0, htime]
    have hlb : ∀ x ∈ notes', st ≤ MIDINote.start x := by
      refine h3 st ?_
      intro c3 hc3
      exact hmin c3 (List.mem_of_mem_eraseIdx hc3)
    refine ⟨note :: notes', ?_, ?_, ?_, ?_⟩
    · rw [mergeGo_drain_last seqs si st c note hc hn hi, h1]
      rfl
    · rw [sortedByStart, List.chain'_cons']
      refine ⟨fun b hb => ?_, h2⟩
      rw [hstart]
      exact hlb b (List.mem_of_mem_head? hb)
    · intro t ht x hx
      rcases List.mem_cons.mp hx with h' | h'
      · rw [h', hstart]
        have := ht c (List.getElem?_mem hc)
        rw [htime] at this
        exact this
      · exact h3 t (fun c3 hc3 => ht c3 (List.mem_of_mem_eraseIdx hc3)) x h'
    · have hsum := sum_map_eraseIdx (fun c3 => ((cursorNotes c3 : Multiset N))) seqs si c hc
      have hcn : cursorNotes c = [note] := by
        simp [cursorNotes, hn, hi]
      dsimp only at hsum
      rw [hcn] at hsum
      show ((note :: notes' : List N) : Multiset N) = _
      rw [show ((note :: notes' : List N) : Multiset N) = note ::ₘ (notes' : Multiset N)
        from rfl, h4, ← hsum]
      rw [show (([note] : List N) : Multiset N) = ({note} : Multiset N) from rfl]
      rw [add_comm, Multiset.singleton_add]
  | case6 seqs si st c hc note hn e tl hi =>
    intro hg hd
    obtain ⟨n0, ns, hn0, hiter, -, -⟩ := hg c (List.getElem?_mem hc)
    rw [hi] at hiter
    cases ns with
    | nil => simp at hiter
    | cons a l => simp at hiter
  | case7 seqs si st c hc note hn n rest hi hne ih =>
    intro hg hd
    obtain ⟨c', hc', htime, hmin⟩ := hd si st (Eq.refl _)
    rw [hc] at hc'
    cases hc'
    obtain ⟨n0, ns, hn0, hiter, htime0, hchain⟩ := hg c (List.getElem?_mem hc)
    rw [hn] at hn0
    cases hn0
    rw [hi] at hiter
    cases ns with
    | nil => simp at hiter
    | cons n1 ns' =>
      simp only [List.map_cons, List.cons.injEq, Except.ok.injEq] at hiter
      obtain ⟨hn1, hrest⟩ := hiter
      subst hn1
      have hstart : MIDINote.start note = st := by rw [← htime0, htime]
      have hrel : MIDINote.start note ≤ MIDINote.start n := (List.chain'_cons.mp hchain).1
      have hlen : si < seqs.length := getElem?_lt_length hc
      have hg' : ∀ c'' ∈ seqs.set si ⟨rest, MIDINote.start n, some n⟩, GoodCursor c'' := by
        intro c'' hc''
        rcases List.mem_or_eq_of_mem_set hc'' with h' | h'
        · exact hg c'' h'
        · rw [h']
          exact ⟨n, ns', Eq.refl _, hrest, Eq.refl _, (List.chain'_cons.mp hchain).2⟩
      have hstlb : ∀ c'' ∈ seqs.set si ⟨rest, MIDINote.start n, some n⟩, st ≤ c''.time := by
        intro c'' hc''
        rcases List.mem_or_eq_of_mem_set hc'' with h' | h'
        · exact hmin c'' h'
        · rw [h']
          rw [← hstart]
          exact hrel
      have hd' : ∀ si' st', (none : Option (Nat × T)) = some (si', st') → ∃ c'',
          (seqs.set si ⟨rest, MIDINote.start n, some n⟩)[si']? = some c'' ∧
          c''.time = st' ∧
          ∀ c3 ∈ seqs.set si ⟨rest, MIDINote.start n, some n⟩, st' ≤ c3.time := by
        intro si' st' heq
        cases heq
      obtain ⟨notes', h1, h2, h3, h4⟩ := ih hg' hd'
      have hlb : ∀ x ∈ notes', st ≤ MIDINote.start x := h3 st hstlb
      refine ⟨note :: notes', ?_, ?_, ?_, ?_⟩
      · rw [mergeGo_drain_ok seqs si st c note n rest hc hn hi, if_pos hne, h1]
        rfl
      · rw [sortedByStart, List.chain'_cons']
        refine ⟨fun b hb => ?_, h2⟩
        rw [hstart]
        exact hlb b (List.mem_of_mem_head? hb)
      · intro t ht x hx
        rcases List.mem_cons.mp hx with h' | h'
        · rw [h', hstart]
          have := ht c (List.getElem?_mem hc)
          rw [htime] at this
          exact this
        · refine h3 t ?_ x h'
          intro c3 hc3
          rcases List.mem_or_eq_of_mem_set hc3 with hm | hm
          · exact ht c3 hm
          · rw [hm]
            have := ht c (List.getElem?_mem hc)
            rw [htime0] at this
            exact le_trans this hrel
      · have hsum := sum_map_set (fun c3 => ((cursorNotes c3 : Multiset N))) seqs si c
          ⟨rest, MIDINote.start n, some n⟩ hc
        have hcn : (cursorNotes c : Multiset N) =
            note ::ₘ ((cursorNotes (⟨rest, MIDINote.start n, some n⟩ : SeqTime T N E) :
              Multiset N)) := by
          simp [cursorNotes, hn, hi, hrest, filterMap_toOption_map_ok, Except.toOption]
        dsimp only at hsum
        rw [hcn] at hsum
        rw [multiset_swap_cons] at hsum
        have hcancel := add_right_cancel hsum
        show ((note :: notes' : List N) : Multiset N) = _
        rw [show ((note :: notes' : List N) : Multiset N) = note ::ₘ (notes' : Multiset N)
          from rfl]
        rw [h4, ← hcancel]
  | case8 seqs si st c hc note hn n rest hi hne ih =>
    intro hg hd
    obtain ⟨c', hc', htime, hmin⟩ := hd si st (Eq.refl _)
    rw [hc] at hc'
    cases hc'
    obtain ⟨n0, ns, hn0, hiter, htime0, hchain⟩ := hg c (List.getElem?_mem hc)
    rw [hn] at hn0
    cases hn0
    rw [hi] at hiter
    cases ns with
    | nil => simp at hiter
    | cons n1 ns' =>
      simp only [List.map_cons, List.cons.injEq, Except.ok.injEq] at hiter
      obtain ⟨hn1, hrest⟩ := hiter
      subst hn1
      have hstart : MIDINote.start note = st := by rw [← htime0, htime]
      have hneq : MIDINote.start n = st := by
        by_contra hcontra
        exact hne hcontra
      have hlen : si < seqs.length := getElem?_lt_length hc
      have hg' : ∀ c'' ∈ seqs.set si ⟨rest, MIDINote.start n, some n⟩, GoodCursor c'' := by
        intro c'' hc''
        rcases List.mem_or_eq_of_mem_set hc'' with h' | h'
        · exact hg c'' h'
        · rw [h']
          exact ⟨n, ns', Eq.refl _, hrest, Eq.refl _, (List.chain'_cons.mp hchain).2⟩
      have hstlb : ∀ c'' ∈ seqs.set si ⟨rest, MIDINote.start n, some n⟩, st ≤ c''.time := by
        intro c'' hc''
        rcases List.mem_or_eq_of_mem_set hc'' with h' | h'
        · exact hmin c'' h'
        · rw [h']
          rw [show (⟨rest, MIDINote.start n, some n⟩ : SeqTime T N E).time =
            MIDINote.start n from rfl, hneq]
      have hd' : ∀ si' st',
          (some (si, st) : Option (Nat × T)) = some (si', st') → ∃ c'',
          (seqs.set si ⟨rest, MIDINote.start n, some n⟩)[si']? = some c'' ∧
          c''.time = st' ∧
          ∀ c3 ∈ seqs.set si ⟨rest, MIDINote.start n, some n⟩, st' ≤ c3.time := by
        intro si' st' heq
        cases heq
        refine ⟨⟨rest, MIDINote.start n, some n⟩, List.getElem?_set_self hlen, hneq, hstlb⟩
      obtain ⟨notes', h1, h2, h3, h4⟩ := ih hg' hd'
      have hlb : ∀ x ∈ notes', st ≤ MIDINote.start x := h3 st hstlb
      refine ⟨note :: notes', ?_, ?_, ?_, ?_⟩
      · rw [mergeGo_drain_ok seqs si st c note n rest hc hn hi, if_neg hne, h1]
        rfl
      · rw [sortedByStart, List.chain'_cons']
        refine ⟨fun b hb => ?_, h2⟩
        rw [hstart]
        exact hlb b (List.mem_of_mem_head? hb)
      · intro t ht x hx
        rcases List.mem_cons.mp hx with h' | h'
        · rw [h', hstart]
          have := ht c (List.getElem?_mem hc)
          rw [htime] at this
          exact this
        · refine h3 t ?_ x h'
          intro c3 hc3
          rcases List.mem_or_eq_of_mem_set hc3 with hm | hm
          · exact ht c3 hm
          · rw [hm]
            have := ht c (List.getElem?_mem hc)
            rw [htime] at this
            rw [show (⟨rest, MIDINote.start n, some n⟩ : SeqTime T N E).time =
              MIDINote.start n from rfl, hneq]
            exact this
      · have hsum := sum_map_set (fun c3 => ((cursorNotes c3 : Multiset N))) seqs si c
          ⟨rest, MIDINote.start n, some n⟩ hc
        have hcn : (cursorNotes c : Multiset N) =
            note ::ₘ ((cursorNotes (⟨rest, MIDINote.start n, some n⟩ : SeqTime T N E) :
              Multiset N)) := by
          simp [cursorNotes, hn, hi, hrest, filterMap_toOption_map_ok, Except.toOption]
        dsimp only at hsum
        rw [hcn] at hsum
        rw [multiset_swap_cons] at hsum
        have hcancel := add_right_cancel hsum
        show ((note :: notes' : List N) : Multiset N) = _
        rw [show ((note :: notes' : List N) : Multiset N) = note ::ₘ (notes' : Multiset N)
          from rfl]
        rw [h4, ← hcancel]

theorem buildCursors_pure_spec (streams : List (List N)) :
    (∀ s ∈ streams, sortedByStart (T := T) s) →
    ∃ seqs, buildCursors (E := E) (streams.map (List.map Except.ok)) = .ok seqs ∧
      (∀ c ∈ seqs, GoodCursor c) ∧
      (seqs.map fun c => ((cursorNotes c : Multiset N))).sum =
        (streams.map fun s => Multiset.ofList s).sum := by
  induction streams with
  | nil => exact fun _ => ⟨[], rfl, by simp, by simp⟩
  | cons s ss ih =>
    intro hs
    obtain ⟨seqs', h1, h2, h3⟩ := ih fun s' hs' => hs s' (List.mem_cons_of_mem _ hs')
    cases s with
    | nil =>
      refine ⟨seqs', ?_, h2, ?_⟩
      · rw [List.map_cons, List.map_nil, buildCursors, h1]
      · rw [h3]
        simp
    | cons n ns =>
      refine ⟨⟨ns.map Except.ok, MIDINote.start n, some n⟩ :: seqs', ?_, ?_, ?_⟩
      · rw [List.map_cons, List.map_cons, buildCursors, h1]
      · intro c hc
        rcases List.mem_cons.mp hc with h' | h'
        · rw [h']
          exact ⟨n, ns, Eq.refl _, Eq.refl _, Eq.refl _, hs _ (List.mem_cons_self _ _)⟩
        · exact h2 c h'
      · rw [List.map_cons, List.map_cons, List.sum_cons, List.sum_cons, h3]
        congr 1
        rw [show (cursorNotes (⟨ns.map Except.ok, MIDINote.start n, some n⟩ : SeqTime T N E)) =
          (some n).toList ++ (ns.map Except.ok).filterMap Except.toOption from rfl,
          filterMap_toOption_map_ok]
        rfl

theorem buildCursors_wf :
    ∀ (streams : List (List (Except E N))) (seqs : List (SeqTime T N E)),
      buildCursors streams = .ok seqs → ∀ c ∈ seqs, WFCursor c := by
  intro streams
  induction streams with
  | nil =>
    intro seqs h
    rw [buildCursors.eq_def] at h
    cases h
    simp
  | cons s ss ih =>
    intro seqs h
    rw [buildCursors.eq_def] at h
    dsimp only at h
    rcases s with - | ⟨x, tl⟩
    · exact ih seqs h
    · rcases x with e | n
      · cases h
      · rcases hbs : (buildCursors ss : Except E (List (SeqTime T N E))) with e | cs
        · rw [hbs] at h
          cases h
        · rw [hbs] at h
          cases h
          intro c hc
          rcases List.mem_cons.mp hc with h' | h'
          · rw [h']
            exact ⟨n, Eq.refl _, Eq.refl _⟩
          · exact ih cs hbs c h'

theorem mergeGo_isSome (seqs : List (SeqTime T N E)) (drain : Option (Nat × T)) :
    (∀ c ∈ seqs, WFCursor c) →
    (∀ si st, drain = some (si, st) → si < seqs.length) →
    (mergeGo seqs drain).isSome := by
  induction seqs, drain using mergeGo.induct with
  | case1 =>
    intro hw hd
    rw [mergeGo_none_nil]
    rfl
  | case2 c cs ih =>
    intro hw hd
    rw [mergeGo_none_cons]
    obtain ⟨cm, hcm, -, -, -⟩ := findSmallest_spec c cs
    refine ih hw ?_
    intro si st heq
    have h1 : (findSmallestAux ((c :: cs).map SeqTime.time) 0 0 c.time).1 = si := by
      rw [Option.some.inj heq]
    rw [← h1]
    exact getElem?_lt_length hcm
  | case3 seqs si st hc =>
    intro hw hd
    have h1 := hd si st (Eq.refl _)
    have h2 : seqs.length ≤ si := List.getElem?_eq_none_iff.mp hc
    omega
  | case4 seqs si st c hc hn =>
    intro hw hd
    obtain ⟨n, hn', -⟩ := hw c (List.getElem?_mem hc)
    rw [hn] at hn'
    cases hn'
  | case5 seqs si st c hc note hn hi ih =>
    intro hw hd
    rw [mergeGo_drain_last seqs si st c note hc hn hi]
    rw [Option.isSome_map']
    exact ih (fun c' hc' => hw c' (List.mem_of_mem_eraseIdx hc')) (by intro si' st' h; cases h)
  | case6 seqs si st c hc note hn e tl hi =>
    intro hw hd
    rw [mergeGo_drain_err seqs si st c note e tl hc hn hi]
    rfl
  | case7 seqs si st c hc note hn n rest hi hne ih =>
    intro hw hd
    rw [mergeGo_drain_ok seqs si st c note n rest hc hn hi, if_pos hne, Option.isSome_map']
    refine ih ?_ (by intro si' st' h; cases h)
    intro c' hc'
    rcases List.mem_or_eq_of_mem_set hc' with h' | h'
    · exact hw c' h'
    · rw [h']
      exact ⟨n, Eq.refl _, Eq.refl _⟩
  | case8 seqs si st c hc note hn n rest hi hne ih =>
    intro hw hd
    rw [mergeGo_drain_ok seqs si st c note n rest hc hn hi, if_neg hne, Option.isSome_map']
    refine ih ?_ ?_
    · intro c' hc'
      rcases List.mem_or_eq_of_mem_set hc' with h' | h'
      · exact hw c' h'
      · rw [h']
        exact ⟨n, Eq.refl _, Eq.refl _⟩
    · intro si' st' heq
      cases heq
      rw [List.length_set]
      exact getElem?_lt_length hc

/-! ## Claims about the merger -/

/-- C1: for every finite collection of input streams, each yielding only `Ok`
note values in non-decreasing start-time order, `merge_notes_array` yields
only `Ok` values, the start times of the yielded values are globally
non-decreasing, and the multiset of yielded values equals the multiset union
of all input values (zero streams and empty streams contribute nothing, so
all-empty input yields the empty output). -/
theorem C1_merge_sorted_multiset_union (streams : List (List N))
    (hs : ∀ s ∈ streams, sortedByStart (T := T) s) :
    ∃ notes : List N,
      merge_notes_array (E := E) (streams.map (List.map Except.ok)) =
        some (notes.map Except.ok) ∧
      sortedByStart (T := T) notes ∧
      ((notes : Multiset N)) = (streams.map fun s => Multiset.ofList s).sum := by
  obtain ⟨seqs, h1, h2, h3⟩ := buildCursors_pure_spec streams hs
  obtain ⟨notes, hm, hsort, -, hmul⟩ := mergeGo_spec seqs none h2 (by intro si st h; cases h)
  refine ⟨notes, ?_, hsort, ?_⟩
  · unfold merge_notes_array
    rw [h1]
    exact hm
  · rw [hmul, h3]

/-- Witness for C1 at the concrete input streams with (time, tag) values
`[(0,1),(5,1)]`, `[(0,2),(3,2)]`, `[(2,3)]`. -/
theorem C1_witness :
    (∀ s ∈ ([[(0, 1), (5, 1)], [(0, 2), (3, 2)], [(2, 3)]] : List (List (Nat × Nat))),
      sortedByStart (T := Nat) s) ∧
    ∃ notes : List (Nat × Nat),
      merge_notes_array (E := Unit)
        (([[(0, 1), (5, 1)], [(0, 2), (3, 2)], [(2, 3)]] : List (List (Nat × Nat))).map
          (List.map Except.ok)) = some (notes.map Except.ok) ∧
      sortedByStart (T := Nat) notes ∧
      ((notes : Multiset (Nat × Nat))) =
        (([[(0, 1), (5, 1)], [(0, 2), (3, 2)], [(2, 3)]] : List (List (Nat × Nat))).map
          fun s => Multiset.ofList s).sum := by
  have hs : ∀ s ∈ ([[(0, 1), (5, 1)], [(0, 2), (3, 2)], [(2, 3)]] : List (List (Nat × Nat))),
      sortedByStart (T := Nat) s := by
    intro s hsm
    rw [sortedByStart]
    fin_cases hsm <;> simp [MIDINote.start]
  exact ⟨hs, C1_merge_sorted_multiset_union _ hs⟩

/-- C10: the live cursor list of the merge loop always holds cursors with a
full pending slot whose start time equals the stored time (established at
initialisation and preserved by the two cursor updates of the loop), and
consequently the merger never panics: `merge_notes_array` returns `some`
output for every input, reporting all failure through the yielded items. -/
theorem C10_merger_never_panics (streams : List (List (Except E N))) :
    (∀ seqs, buildCursors (T := T) streams = .ok seqs → ∀ c ∈ seqs, WFCursor c) ∧
    (∀ (seqs : List (SeqTime T N E)) (si : Nat),
      (∀ c ∈ seqs, WFCursor c) → ∀ c ∈ seqs.eraseIdx si, WFCursor c) ∧
    (∀ (seqs : List (SeqTime T N E)) (si : Nat) (n : N) (rest : List (Except E N)),
      (∀ c ∈ seqs, WFCursor c) →
      ∀ c ∈ seqs.set si ⟨rest, MIDINote.start n, some n⟩, WFCursor c) ∧
    (merge_notes_array (T := T) streams).isSome := by
  refine ⟨fun seqs h => buildCursors_wf streams seqs h, ?_, ?_, ?_⟩
  · exact fun seqs si hw c hc => hw c (List.mem_of_mem_eraseIdx hc)
  · intro seqs si n rest hw c hc
    rcases List.mem_or_eq_of_mem_set hc with h' | h'
    · exact hw c h'
    · rw [h']
      exact ⟨n, Eq.refl _, Eq.refl _⟩
  · unfold merge_notes_array
    rcases hb : (buildCursors streams : Except E (List (SeqTime T N E))) with e | seqs
    · rfl
    · exact mergeGo_isSome seqs none (buildCursors_wf streams seqs hb)
        (by intro si st h; cases h)

/-- Witness for C10 at a concrete input containing an erroring stream. -/
theorem C10_witness :
    (∀ seqs,
      buildCursors ([[Except.ok ((1 : Nat), (1 : Nat))], [Except.error (7 : Nat), Except.ok (2, 2)]] :
        List (List (Except Nat (Nat × Nat)))) = .ok seqs → ∀ c ∈ seqs, WFCursor c) ∧
    (merge_notes_array ([[Except.ok ((1 : Nat), (1 : Nat))], [Except.error (7 : Nat), Except.ok (2, 2)]] :
      List (List (Except Nat (Nat × Nat))))).isSome := by
  have h := C10_merger_never_panics
    ([[Except.ok ((1 : Nat), (1 : Nat))], [Except.error (7 : Nat), Except.ok (2, 2)]] :
      List (List (Except Nat (Nat × Nat))))
  exact ⟨h.1, h.2.2.2⟩

/-- C2: each scan of the merge loop selects, among live cursors holding the
minimal start time, the first-registered (lowest-index) cursor; after
emitting and advancing the selected cursor, the same cursor is emitted again
(drain continues, no re-scan) exactly while its new start time equals the
scan minimum, and the outer scan resumes when the time differs (exhaustion
removes the cursor). Consequently, for three streams with start times
`[0,5]`, `[0,3]`, `[2]` the output start times are `0,0,2,3,5` with the two
time-0 values in stream registration order. -/
theorem C2_scan_tiebreak_and_drain :
    (∀ (c : SeqTime T N E) (cs : List (SeqTime T N E)),
      ∃ cm, (c :: cs)[(findSmallestAux ((c :: cs).map SeqTime.time) 0 0 c.time).1]? = some cm ∧
        cm.time = (findSmallestAux ((c :: cs).map SeqTime.time) 0 0 c.time).2 ∧
        (∀ c' ∈ c :: cs, (findSmallestAux ((c :: cs).map SeqTime.time) 0 0 c.time).2 ≤ c'.time) ∧
        (∀ j c', j < (findSmallestAux ((c :: cs).map SeqTime.time) 0 0 c.time).1 →
          (c :: cs)[j]? = some c' →
          (findSmallestAux ((c :: cs).map SeqTime.time) 0 0 c.time).2 < c'.time)) ∧
    (∀ (seqs : List (SeqTime T N E)) (si : Nat) (st : T) (c : SeqTime T N E)
        (note n : N) (rest : List (Except E N)),
      seqs[si]? = some c → c.next = some note → c.iter = Except.ok n :: rest →
      (MIDINote.start n = st →
        mergeGo seqs (some (si, st)) =
          Option.map (fun out => Except.ok note :: out)
            (mergeGo (seqs.set si ⟨rest, MIDINote.start n, some n⟩) (some (si, st)))) ∧
      (MIDINote.start n ≠ st →
        mergeGo seqs (some (si, st)) =
          Option.map (fun out => Except.ok note :: out)
            (mergeGo (seqs.set si ⟨rest, MIDINote.start n, some n⟩) none))) ∧
    (merge_notes_array (E := Unit)
        (([[(0, 1), (5, 1)], [(0, 2), (3, 2)], [(2, 3)]] : List (List (Nat × Nat))).map
          (List.map Except.ok)) =
      some [Except.ok (0, 1), Except.ok (0, 2), Except.ok (2, 3), Except.ok (3, 2),
        Except.ok (5, 1)]) := by
  refine ⟨findSmallest_spec, ?_, ?_⟩
  · intro seqs si st c note n rest hc hn hi
    constructor
    · intro heq
      rw [mergeGo_drain_ok seqs si st c note n rest hc hn hi, if_neg (by rw [heq]; simp)]
    · intro hne
      rw [mergeGo_drain_ok seqs si st c note n rest hc hn hi, if_pos hne]
  · simp [merge_notes_array, buildCursors, mergeGo_none_nil, mergeGo_none_cons,
      mergeGo_drain_eq, findSmallestAux, MIDINote.start]

/-- Witness for C2: the scan specification applied to the concrete cursors
with times `[5, 0]` and the drain-continuation rule applied to a concrete
single-cursor state at the scan minimum. -/
theorem C2_witness :
    (∃ cm, (([⟨[], 5, some (5, 9)⟩, ⟨[], 0, some (0, 8)⟩] :
        List (SeqTime Nat (Nat × Nat) Unit)))[(findSmallestAux
          (([⟨[], 5, some (5, 9)⟩, ⟨[], 0, some (0, 8)⟩] :
            List (SeqTime Nat (Nat × Nat) Unit)).map SeqTime.time) 0 0 5).1]? = some cm ∧
      cm.time = (findSmallestAux
          (([⟨[], 5, some (5, 9)⟩, ⟨[], 0, some (0, 8)⟩] :
            List (SeqTime Nat (Nat × Nat) Unit)).map SeqTime.time) 0 0 5).2 ∧
      (∀ c' ∈ ([⟨[], 5, some (5, 9)⟩, ⟨[], 0, some (0, 8)⟩] :
          List (SeqTime Nat (Nat × Nat) Unit)),
        (findSmallestAux
          (([⟨[], 5, some (5, 9)⟩, ⟨[], 0, some (0, 8)⟩] :
            List (SeqTime Nat (Nat × Nat) Unit)).map SeqTime.time) 0 0 5).2 ≤ c'.time) ∧
      (∀ j c', j < (findSmallestAux
          (([⟨[], 5, some (5, 9)⟩, ⟨[], 0, some (0, 8)⟩] :
            List (SeqTime Nat (Nat × Nat) Unit)).map SeqTime.time) 0 0 5).1 →
        (([⟨[], 5, some (5, 9)⟩, ⟨[], 0, some (0, 8)⟩] :
          List (SeqTime Nat (Nat × Nat) Unit)))[j]? = some c' →
        (findSmallestAux
          (([⟨[], 5, some (5, 9)⟩, ⟨[], 0, some (0, 8)⟩] :
            List (SeqTime Nat (Nat × Nat) Unit)).map SeqTime.time) 0 0 5).2 < c'.time)) ∧
    (mergeGo ([⟨[Except.ok (0, 4)], 0, some (0, 5)⟩] :
        List (SeqTime Nat (Nat × Nat) Unit)) (some (0, 0)) =
      Option.map (fun out => Except.ok (0, 5) :: out)
        (mergeGo (([⟨[Except.ok (0, 4)], 0, some (0, 5)⟩] :
          List (SeqTime Nat (Nat × Nat) Unit)).set 0
            ⟨[], MIDINote.start ((0 : Nat), (4 : Nat)), some (0, 4)⟩) (some (0, 0)))) ∧
    (merge_notes_array (E := Unit)
        (([[(0, 1), (5, 1)], [(0, 2), (3, 2)], [(2, 3)]] : List (List (Nat × Nat))).map
          (List.map Except.ok)) =
      some [Except.ok (0, 1), Except.ok (0, 2), Except.ok (2, 3), Except.ok (3, 2),
        Except.ok (5, 1)]) := by
  refine ⟨?_, ?_, (C2_scan_tiebreak_and_drain (T := Nat) (N := Nat × Nat) (E := Unit)).2.2⟩
  · exact (C2_scan_tiebreak_and_drain (T := Nat) (N := Nat × Nat) (E := Unit)).1
      ⟨[], 5, some (5, 9)⟩ [⟨[], 0, some (0, 8)⟩]
  · exact ((C2_scan_tiebreak_and_drain (T := Nat) (N := Nat × Nat) (E := Unit)).2.1
      ([⟨[Except.ok (0, 4)], 0, some (0, 5)⟩] : List (SeqTime Nat (Nat × Nat) Unit))
      0 0 ⟨[Except.ok (0, 4)], 0, some (0, 5)⟩ (0, 5) (0, 4) []
      (by simp) (Eq.refl _) (Eq.refl _)).1 (Eq.refl _)


/-! ## Decoder: symbolic single-byte read lemmas -/

/-- State after consuming one byte from the byte-source. -/
def TrackParser.bump (p : TrackParser) : TrackParser :=
  { p with reader := { p.reader with pos := p.reader.pos + 1 } }

theorem drop_cons_getElem {l : List Nat} {i b : Nat} {bs : List Nat}
    (h : l.drop i = b :: bs) : l[i]? = some b := by
  have h1 : (l.drop i).head? = some b := by rw [h]; rfl
  rw [List.head?_drop] at h1
  exact h1

theorem drop_cons_tail {l : List Nat} {i b : Nat} {bs : List Nat}
    (h : l.drop i = b :: bs) : l.drop (i + 1) = bs := by
  have h1 : (l.drop i).tail = bs := by rw [h]; rfl
  rw [List.tail_drop] at h1
  exact h1

theorem read_fast_cons {p : TrackParser} {b : Nat} {bs : List Nat}
    (hb : p.reader.data.drop p.reader.pos = b :: bs) :
    p.read_fast = (.ok b, p.bump) := by
  unfold TrackParser.read_fast Reader.read
  rw [drop_cons_getElem hb]
  rfl

theorem read_cons {p : TrackParser} {b : Nat} {bs : List Nat}
    (hpb : p.pushback = -1) (hb : p.reader.data.drop p.reader.pos = b :: bs) :
    p.read = (.ok b, p.bump) := by
  unfold TrackParser.read
  rw [if_neg (by simp [hpb])]
  unfold Reader.read
  rw [drop_cons_getElem hb]
  rfl

theorem bump_drop {p : TrackParser} {b : Nat} {bs : List Nat}
    (hb : p.reader.data.drop p.reader.pos = b :: bs) :
    p.bump.reader.data.drop p.bump.reader.pos = bs :=
  drop_cons_tail hb

theorem read_var_length_single {p : TrackParser} {b : Nat} {bs : List Nat}
    (hpb : p.pushback = -1) (hb : p.reader.data.drop p.reader.pos = b :: bs)
    (h7 : b &&& 0x80 = 0) :
    p.read_var_length = (.ok (b &&& 0x7F), p.bump) := by
  rw [TrackParser.read_var_length, readVarLengthAux_eq, read_cons hpb hb]
  dsimp only
  rw [if_pos h7]
  norm_num

theorem readCommand_status_cons {p : TrackParser} {b : Nat} {bs : List Nat}
    (hpb : p.pushback = -1) (hb : p.reader.data.drop p.reader.pos = b :: bs)
    (hge : 0x80 ≤ b) :
    p.readCommand = (.ok b, { p.bump with prev_command := b }) := by
  unfold TrackParser.readCommand
  rw [read_cons hpb hb]
  dsimp only [pbind]
  rw [if_neg (by omega)]

theorem readCommand_borrow_cons {p : TrackParser} {b : Nat} {bs : List Nat}
    (hpb : p.pushback = -1) (hb : p.reader.data.drop p.reader.pos = b :: bs)
    (hlt : b < 0x80) :
    p.readCommand = (.ok p.prev_command, { p.bump with pushback := (b : Int) }) := by
  unfold TrackParser.readCommand
  rw [read_cons hpb hb]
  dsimp only [pbind]
  rw [if_pos hlt]
  rfl

theorem isAtEnd_false_of_drop_cons {p : TrackParser} {b : Nat} {bs : List Nat}
    (hb : p.reader.data.drop p.reader.pos = b :: bs) :
    p.reader.isAtEnd = false := by
  have h1 := drop_cons_getElem hb
  have h2 : p.reader.pos < p.reader.data.length := getElem?_lt_length h1
  simp [Reader.isAtEnd]
  omega

/-! ## Claims about the decoder -/

theorem tryParse_noteOn_chain {p : TrackParser} {d : Nat} {p1 : TrackParser} {c : Nat}
    {p2 : TrackParser} {key : Nat} {p3 q : TrackParser} {vel : Nat}
    (hv : p.read_var_length = (.ok d, p1)) (hc : p1.readCommand = (.ok c, p2))
    (hcomm : c &&& 0xF0 = 0x90) (hk : p2.read = (.ok key, p3))
    (hvel : p3.read_fast = (.ok vel, q)) (hnz : vel ≠ 0) :
    p.tryParseNextEvent = (.ok (some ⟨d, .noteOn (c &&& 0x0F) key vel⟩), q) := by
  unfold TrackParser.tryParseNextEvent
  rw [hv]
  dsimp only [pbind]
  rw [hc]
  dsimp only [pbind]
  rw [hcomm]
  rw [if_neg (by norm_num), if_pos (Eq.refl _), hk]
  dsimp only [pbind]
  rw [hvel]
  dsimp only [pbind]
  rw [if_neg hnz]

theorem tryParse_noteOff_chain {p : TrackParser} {d : Nat} {p1 : TrackParser} {c : Nat}
    {p2 : TrackParser} {key : Nat} {p3 q : TrackParser}
    (hv : p.read_var_length = (.ok d, p1)) (hc : p1.readCommand = (.ok c, p2))
    (hcomm : c &&& 0xF0 = 0x90) (hk : p2.read = (.ok key, p3))
    (hvel : p3.read_fast = (.ok 0, q)) :
    p.tryParseNextEvent = (.ok (some ⟨d, .noteOff (c &&& 0x0F) key⟩), q) := by
  unfold TrackParser.tryParseNextEvent
  rw [hv]
  dsimp only [pbind]
  rw [hc]
  dsimp only [pbind]
  rw [hcomm]
  rw [if_neg (by norm_num), if_pos (Eq.refl _), hk]
  dsimp only [pbind]
  rw [hvel]
  dsimp only [pbind]
  rw [if_pos (Eq.refl _)]

/-- C3: when the candidate status byte has its high bit clear, the decoder
stores that byte back into the pushback slot and substitutes the remembered
running status (`prev_command`, unchanged by the read) as the effective
status; consequently the bytes `90 3C 40` followed by a delta and `3E 40`
(no status byte) decode as Note On ch0 key 0x3C vel 0x40 followed by Note On
ch0 key 0x3E vel 0x40. -/
theorem C3_running_status_carry :
    (∀ (p : TrackParser) (b : Nat) (q : TrackParser),
      p.read = (.ok b, q) → b < 0x80 →
      p.readCommand = (.ok q.prev_command, { q with pushback := (b : Int) }) ∧
      q.prev_command = p.prev_command) ∧
    runParser (TrackParser.new ⟨[0x00, 0x90, 0x3C, 0x40, 0x00, 0x3E, 0x40], 0, 0⟩) =
      [.ok ⟨0, .noteOn 0 0x3C 0x40⟩, .ok ⟨0, .noteOn 0 0x3E 0x40⟩] := by
  constructor
  · intro p b q h hlt
    refine ⟨?_, (read_ok_step h).1.2.2.2.2⟩
    unfold TrackParser.readCommand
    rw [h]
    dsimp only [pbind]
    rw [if_pos hlt]
  · have hv1 : TrackParser.read_var_length
        ⟨⟨[0x00, 0x90, 0x3C, 0x40, 0x00, 0x3E, 0x40], 0, 0⟩, -1, 0, false⟩ =
        (.ok 0, ⟨⟨[0x00, 0x90, 0x3C, 0x40, 0x00, 0x3E, 0x40], 1, 0⟩, -1, 0, false⟩) := by
      simp [TrackParser.read_var_length, readVarLengthAux_eq, TrackParser.read, Reader.read]
    have hc1 : TrackParser.readCommand
        ⟨⟨[0x00, 0x90, 0x3C, 0x40, 0x00, 0x3E, 0x40], 1, 0⟩, -1, 0, false⟩ =
        (.ok 0x90, ⟨⟨[0x00, 0x90, 0x3C, 0x40, 0x00, 0x3E, 0x40], 2, 0⟩, -1, 0x90, false⟩) := by
      simp [TrackParser.readCommand, TrackParser.read, Reader.read, pbind]
    have hk1 : TrackParser.read
        ⟨⟨[0x00, 0x90, 0x3C, 0x40, 0x00, 0x3E, 0x40], 2, 0⟩, -1, 0x90, false⟩ =
        (.ok 0x3C, ⟨⟨[0x00, 0x90, 0x3C, 0x40, 0x00, 0x3E, 0x40], 3, 0⟩, -1, 0x90, false⟩) := by
      simp [TrackParser.read, Reader.read]
    have hvel1 : TrackParser.read_fast
        ⟨⟨[0x00, 0x90, 0x3C, 0x40, 0x00, 0x3E, 0x40], 3, 0⟩, -1, 0x90, false⟩ =
        (.ok 0x40, ⟨⟨[0x00, 0x90, 0x3C, 0x40, 0x00, 0x3E, 0x40], 4, 0⟩, -1, 0x90, false⟩) := by
      simp [TrackParser.read_fast, Reader.read]
    have ht1 : TrackParser.tryParseNextEvent
        ⟨⟨[0x00, 0x90, 0x3C, 0x40, 0x00, 0x3E, 0x40], 0, 0⟩, -1, 0, false⟩ =
        (.ok (some ⟨0, .noteOn 0 0x3C 0x40⟩),
         ⟨⟨[0x00, 0x90, 0x3C, 0x40, 0x00, 0x3E, 0x40], 4, 0⟩, -1, 0x90, false⟩) := by
      have h := tryParse_noteOn_chain hv1 hc1 (by rfl) hk1 hvel1 (by norm_num)
      rw [h]
      rfl
    have hv2 : TrackParser.read_var_length
        ⟨⟨[0x00, 0x90, 0x3C, 0x40, 0x00, 0x3E, 0x40], 4, 0⟩, -1, 0x90, false⟩ =
        (.ok 0, ⟨⟨[0x00, 0x90, 0x3C, 0x40, 0x00, 0x3E, 0x40], 5, 0⟩, -1, 0x90, false⟩) := by
      simp [TrackParser.read_var_length, readVarLengthAux_eq, TrackParser.read, Reader.read]
    have hc2 : TrackParser.readCommand
        ⟨⟨[0x00, 0x90, 0x3C, 0x40, 0x00, 0x3E, 0x40], 5, 0⟩, -1, 0x90, false⟩ =
        (.ok 0x90, ⟨⟨[0x00, 0x90, 0x3C, 0x40, 0x00, 0x3E, 0x40], 6, 0⟩, 0x3E, 0x90, false⟩) := by
      simp [TrackParser.readCommand, TrackParser.read, Reader.read, pbind]
    have hk2 : TrackParser.read
        ⟨⟨[0x00, 0x90, 0x3C, 0x40, 0x00, 0x3E, 0x40], 6, 0⟩, 0x3E, 0x90, false⟩ =
        (.ok 0x3E, ⟨⟨[0x00, 0x90, 0x3C, 0x40, 0x00, 0x3E, 0x40], 6, 0⟩, -1, 0x90, false⟩) := by
      rfl
    have hvel2 : TrackParser.read_fast
        ⟨⟨[0x00, 0x90, 0x3C, 0x40, 0x00, 0x3E, 0x40], 6, 0⟩, -1, 0x90, false⟩ =
        (.ok 0x40, ⟨⟨[0x00, 0x90, 0x3C, 0x40, 0x00, 0x3E, 0x40], 7, 0⟩, -1, 0x90, false⟩) := by
      simp [TrackParser.read_fast, Reader.read]
    have ht2 : TrackParser.tryParseNextEvent
        ⟨⟨[0x00, 0x90, 0x3C, 0x40, 0x00, 0x3E, 0x40], 4, 0⟩, -1, 0x90, false⟩ =
        (.ok (some ⟨0, .noteOn 0 0x3E 0x40⟩),
         ⟨⟨[0x00, 0x90, 0x3C, 0x40, 0x00, 0x3E, 0x40], 7, 0⟩, -1, 0x90, false⟩) := by
      have h := tryParse_noteOn_chain hv2 hc2 (by rfl) hk2 hvel2 (by norm_num)
      rw [h]
      rfl
    have n1 : TrackParser.next
        ⟨⟨[0x00, 0x90, 0x3C, 0x40, 0x00, 0x3E, 0x40], 0, 0⟩, -1, 0, false⟩ =
        (some (.ok ⟨0, .noteOn 0 0x3C 0x40⟩),
         ⟨⟨[0x00, 0x90, 0x3C, 0x40, 0x00, 0x3E, 0x40], 4, 0⟩, -1, 0x90, false⟩) :=
      next_eq_some (Eq.refl _) (by decide) ht1
    have n2 : TrackParser.next
        ⟨⟨[0x00, 0x90, 0x3C, 0x40, 0x00, 0x3E, 0x40], 4, 0⟩, -1, 0x90, false⟩ =
        (some (.ok ⟨0, .noteOn 0 0x3E 0x40⟩),
         ⟨⟨[0x00, 0x90, 0x3C, 0x40, 0x00, 0x3E, 0x40], 7, 0⟩, -1, 0x90, false⟩) :=
      next_eq_some (Eq.refl _) (by decide) ht2
    have n3 : TrackParser.next
        ⟨⟨[0x00, 0x90, 0x3C, 0x40, 0x00, 0x3E, 0x40], 7, 0⟩, -1, 0x90, false⟩ =
        (none, ⟨⟨[0x00, 0x90, 0x3C, 0x40, 0x00, 0x3E, 0x40], 7, 0⟩, -1, 0x90, false⟩) :=
      next_eq_stop (Or.inr (by decide))
    have s3 : runParser
        ⟨⟨[0x00, 0x90, 0x3C, 0x40, 0x00, 0x3E, 0x40], 7, 0⟩, -1, 0x90, false⟩ = [] := by
      rw [runParser_eq, n3]
    have s2 : runParser
        ⟨⟨[0x00, 0x90, 0x3C, 0x40, 0x00, 0x3E, 0x40], 4, 0⟩, -1, 0x90, false⟩ =
        .ok ⟨0, .noteOn 0 0x3E 0x40⟩ :: runParser
          ⟨⟨[0x00, 0x90, 0x3C, 0x40, 0x00, 0x3E, 0x40], 7, 0⟩, -1, 0x90, false⟩ := by
      rw [runParser_eq, n2]
    have s1 : runParser
        ⟨⟨[0x00, 0x90, 0x3C, 0x40, 0x00, 0x3E, 0x40], 0, 0⟩, -1, 0, false⟩ =
        .ok ⟨0, .noteOn 0 0x3C 0x40⟩ :: runParser
          ⟨⟨[0x00, 0x90, 0x3C, 0x40, 0x00, 0x3E, 0x40], 4, 0⟩, -1, 0x90, false⟩ := by
      rw [runParser_eq, n1]
    show runParser ⟨⟨[0x00, 0x90, 0x3C, 0x40, 0x00, 0x3E, 0x40], 0, 0⟩, -1, 0, false⟩ = _
    rw [s1, s2, s3]

/-- C4: decoding a Note On message (effective status with high nibble 0x90)
whose velocity data byte is 0 produces a Note Off event for the same channel
and key, never a Note On with velocity 0; in particular the bytes
`90 3C 00` (after a delta) decode to a Note Off event for key 0x3C. -/
theorem C4_velocity_zero_note_off :
    (∀ (p : TrackParser) (d : Nat) (p1 : TrackParser) (c : Nat) (p2 : TrackParser)
        (key : Nat) (p3 q : TrackParser),
      p.read_var_length = (.ok d, p1) → p1.readCommand = (.ok c, p2) →
      c &&& 0xF0 = 0x90 → p2.read = (.ok key, p3) → p3.read_fast = (.ok 0, q) →
      p.tryParseNextEvent = (.ok (some ⟨d, .noteOff (c &&& 0x0F) key⟩), q)) ∧
    (TrackParser.next (TrackParser.new ⟨[0x00, 0x90, 0x3C, 0x00], 0, 0⟩)).1 =
      some (.ok ⟨0, .noteOff 0 0x3C⟩) := by
  constructor
  · intro p d p1 c p2 key p3 q hv hc hcomm hk hvel
    unfold TrackParser.tryParseNextEvent
    rw [hv]
    dsimp only [pbind]
    rw [hc]
    dsimp only [pbind]
    rw [hcomm]
    rw [if_neg (by norm_num), if_pos (Eq.refl _), hk]
    dsimp only [pbind]
    rw [hvel]
    dsimp only [pbind]
    rw [if_pos (Eq.refl _)]
  · have gv : TrackParser.read_var_length
        ⟨⟨[0x00, 0x90, 0x3C, 0x00], 0, 0⟩, -1, 0, false⟩ =
        (.ok 0, ⟨⟨[0x00, 0x90, 0x3C, 0x00], 1, 0⟩, -1, 0, false⟩) := by
      simp [TrackParser.read_var_length, readVarLengthAux_eq, TrackParser.read, Reader.read]
    have gc : TrackParser.readCommand
        ⟨⟨[0x00, 0x90, 0x3C, 0x00], 1, 0⟩, -1, 0, false⟩ =
        (.ok 0x90, ⟨⟨[0x00, 0x90, 0x3C, 0x00], 2, 0⟩, -1, 0x90, false⟩) := by
      simp [TrackParser.readCommand, TrackParser.read, Reader.read, pbind]
    have gk : TrackParser.read
        ⟨⟨[0x00, 0x90, 0x3C, 0x00], 2, 0⟩, -1, 0x90, false⟩ =
        (.ok 0x3C, ⟨⟨[0x00, 0x90, 0x3C, 0x00], 3, 0⟩, -1, 0x90, false⟩) := by
      simp [TrackParser.read, Reader.read]
    have gvel : TrackParser.read_fast
        ⟨⟨[0x00, 0x90, 0x3C, 0x00], 3, 0⟩, -1, 0x90, false⟩ =
        (.ok 0, ⟨⟨[0x00, 0x90, 0x3C, 0x00], 4, 0⟩, -1, 0x90, false⟩) := by
      simp [TrackParser.read_fast, Reader.read]
    have gt : TrackParser.tryParseNextEvent
        ⟨⟨[0x00, 0x90, 0x3C, 0x00], 0, 0⟩, -1, 0, false⟩ =
        (.ok (some ⟨0, .noteOff 0 0x3C⟩),
         ⟨⟨[0x00, 0x90, 0x3C, 0x00], 4, 0⟩, -1, 0x90, false⟩) := by
      have h := tryParse_noteOff_chain gv gc (by rfl) gk gvel
      rw [h]
      rfl
    have gn : TrackParser.next ⟨⟨[0x00, 0x90, 0x3C, 0x00], 0, 0⟩, -1, 0, false⟩ =
        (some (.ok ⟨0, .noteOff 0 0x3C⟩),
         ⟨⟨[0x00, 0x90, 0x3C, 0x00], 4, 0⟩, -1, 0x90, false⟩) :=
      next_eq_some (Eq.refl _) (by decide) gt
    show (TrackParser.next ⟨⟨[0x00, 0x90, 0x3C, 0x00], 0, 0⟩, -1, 0, false⟩).1 = _
    rw [gn]

/-- Witness for C3: the pushback carry rule applied to a concrete parser
whose next byte is the data byte 0x3E, plus the concrete running-status
track. -/
theorem C3_witness :
    (TrackParser.new ⟨[0x3E], 0, 0⟩).readCommand =
      (.ok ((TrackParser.new ⟨[0x3E], 0, 0⟩).bump).prev_command,
        { (TrackParser.new ⟨[0x3E], 0, 0⟩).bump with pushback := ((0x3E : Nat) : Int) }) ∧
    ((TrackParser.new ⟨[0x3E], 0, 0⟩).bump).prev_command =
      (TrackParser.new ⟨[0x3E], 0, 0⟩).prev_command ∧
    runParser (TrackParser.new ⟨[0x00, 0x90, 0x3C, 0x40, 0x00, 0x3E, 0x40], 0, 0⟩) =
      [.ok ⟨0, .noteOn 0 0x3C 0x40⟩, .ok ⟨0, .noteOn 0 0x3E 0x40⟩] := by
  have hread : (TrackParser.new ⟨[0x3E], 0, 0⟩).read =
      (.ok 0x3E, (TrackParser.new ⟨[0x3E], 0, 0⟩).bump) :=
    read_cons (Eq.refl _) (Eq.refl _)
  have h := C3_running_status_carry.1 _ _ _ hread (by norm_num)
  exact ⟨h.1, h.2, C3_running_status_carry.2⟩

/-- Witness for C4: the velocity-zero rule applied on channel 0xA with key
0x15, plus the concrete `90 3C 00` track. -/
theorem C4_witness :
    TrackParser.tryParseNextEvent ⟨⟨[0x00, 0x9A, 0x15, 0x00], 0, 0⟩, -1, 0, false⟩ =
      (.ok (some ⟨0, .noteOff (0x9A &&& 0x0F) 0x15⟩), ⟨⟨[0x00, 0x9A, 0x15, 0x00], 4, 0⟩, -1, 0x9A, false⟩) ∧
    (TrackParser.next (TrackParser.new ⟨[0x00, 0x90, 0x3C, 0x00], 0, 0⟩)).1 =
      some (.ok ⟨0, .noteOff 0 0x3C⟩) := by
  have hv : TrackParser.read_var_length ⟨⟨[0x00, 0x9A, 0x15, 0x00], 0, 0⟩, -1, 0, false⟩ =
      (.ok 0, ⟨⟨[0x00, 0x9A, 0x15, 0x00], 1, 0⟩, -1, 0, false⟩) := by
    simp [TrackParser.read_var_length, readVarLengthAux_eq, TrackParser.read, Reader.read]
  have hc : TrackParser.readCommand ⟨⟨[0x00, 0x9A, 0x15, 0x00], 1, 0⟩, -1, 0, false⟩ =
      (.ok 0x9A, ⟨⟨[0x00, 0x9A, 0x15, 0x00], 2, 0⟩, -1, 0x9A, false⟩) := by
    simp [TrackParser.readCommand, TrackParser.read, Reader.read, pbind]
  have hk : TrackParser.read ⟨⟨[0x00, 0x9A, 0x15, 0x00], 2, 0⟩, -1, 0x9A, false⟩ =
      (.ok 0x15, ⟨⟨[0x00, 0x9A, 0x15, 0x00], 3, 0⟩, -1, 0x9A, false⟩) := by
    simp [TrackParser.read, Reader.read]
  have hvel : TrackParser.read_fast ⟨⟨[0x00, 0x9A, 0x15, 0x00], 3, 0⟩, -1, 0x9A, false⟩ =
      (.ok 0, ⟨⟨[0x00, 0x9A, 0x15, 0x00], 4, 0⟩, -1, 0x9A, false⟩) := by
    simp [TrackParser.read_fast, Reader.read]
  exact ⟨C4_velocity_zero_note_off.1 _ _ _ _ _ _ _ _ hv hc (by rfl) hk hvel,
    C4_velocity_zero_note_off.2⟩

/-- C5: restoring from a checkpoint whose recorded position equals the
reader's position succeeds and produces a parser with the checkpoint's
pushback, running status and errored flag, whose remaining item sequence is
exactly that of a parser that had those same field values at that reader
position and simply continued iterating; a position mismatch fails the
precondition fatally (an assertion panic, modelled as `none`), not as a
recoverable decode-error item. -/
theorem C5_checkpoint_restore (p : TrackParser) (r : Reader)
    (hpos : r.pos = p.reader.pos) :
    (TrackParser.from_checkpoint r p.checkpoint =
      some { reader := r, pushback := p.pushback, prev_command := p.prev_command,
             errored := p.errored } ∧
     runParser { reader := r, pushback := p.pushback, prev_command := p.prev_command,
                 errored := p.errored } = runParser { p with reader := r }) ∧
    (∀ (r' : Reader) (cp : ParserCheckpoint), r'.pos ≠ cp.reader_pos →
      TrackParser.from_checkpoint r' cp = none) := by
  refine ⟨⟨?_, Eq.refl _⟩, ?_⟩
  · unfold TrackParser.from_checkpoint TrackParser.checkpoint
    rw [if_pos hpos.symm]
  · intro r' cp hne
    unfold TrackParser.from_checkpoint
    rw [if_neg fun heq => hne heq.symm]

/-- Witness for C5: restore at a concrete mid-track state (after one decoded
event) with an identically positioned reader, and a mismatch example. -/
theorem C5_witness :
    (TrackParser.from_checkpoint ⟨[0x00, 0x90, 0x3C, 0x40, 0x00, 0x3E, 0x40], 4, 0⟩
        (TrackParser.checkpoint ⟨⟨[0x00, 0x90, 0x3C, 0x40, 0x00, 0x3E, 0x40], 4, 0⟩, -1, 0x90, false⟩) =
      some { reader := ⟨[0x00, 0x90, 0x3C, 0x40, 0x00, 0x3E, 0x40], 4, 0⟩, pushback := -1,
             prev_command := 0x90, errored := false } ∧
     runParser { reader := ⟨[0x00, 0x90, 0x3C, 0x40, 0x00, 0x3E, 0x40], 4, 0⟩, pushback := (-1 : Int),
                 prev_command := 0x90, errored := false } =
       runParser { (⟨⟨[0x00, 0x90, 0x3C, 0x40, 0x00, 0x3E, 0x40], 4, 0⟩, -1, 0x90, false⟩ : TrackParser) with
                   reader := ⟨[0x00, 0x90, 0x3C, 0x40, 0x00, 0x3E, 0x40], 4, 0⟩ }) ∧
    (∀ (r' : Reader) (cp : ParserCheckpoint), r'.pos ≠ cp.reader_pos →
      TrackParser.from_checkpoint r' cp = none) :=
  C5_checkpoint_restore ⟨⟨[0x00, 0x90, 0x3C, 0x40, 0x00, 0x3E, 0x40], 4, 0⟩, -1, 0x90, false⟩
    ⟨[0x00, 0x90, 0x3C, 0x40, 0x00, 0x3E, 0x40], 4, 0⟩ (Eq.refl _)

theorem assertLen_err_cons {p : TrackParser} {len size : Nat} {bs : List Nat}
    (hb : p.reader.data.drop p.reader.pos = len :: bs) (hne : len ≠ size) :
    assertLen p size =
      (.error (.corruptEvent p.bump.reader.track_number p.bump.reader.pos), p.bump) := by
  unfold assertLen
  rw [read_fast_cons hb]
  dsimp only [pbind]
  rw [if_pos hne]

theorem tryParse_meta_badlen {p : TrackParser} {s L len : Nat} {rest : List Nat}
    (hpb : p.pushback = -1) (hfix : metaFixedLen s = some L) (hlen : len ≠ L)
    (hb : p.reader.data.drop p.reader.pos = 0x00 :: 0xFF :: s :: len :: rest) :
    p.tryParseNextEvent =
      (.error (.corruptEvent p.reader.track_number (p.reader.pos + 4)),
       { p with reader := { p.reader with pos := p.reader.pos + 4 }, prev_command := 0xFF }) := by
  have hd1 : p.bump.reader.data.drop p.bump.reader.pos = 0xFF :: s :: len :: rest :=
    bump_drop hb
  have hv := read_var_length_single hpb hb (by decide)
  have hc := readCommand_status_cons (p := p.bump) hpb hd1 (by norm_num)
  have hd2 : ({ p.bump.bump with prev_command := 0xFF } :
      TrackParser).reader.data.drop
      ({ p.bump.bump with prev_command := 0xFF } : TrackParser).reader.pos =
      s :: len :: rest :=
    bump_drop hd1
  have hs := read_cons (p := { p.bump.bump with prev_command := 0xFF }) hpb hd2
  have hd3 : ({ p.bump.bump with prev_command := 0xFF } :
      TrackParser).bump.reader.data.drop
      ({ p.bump.bump with prev_command := 0xFF } : TrackParser).bump.reader.pos =
      len :: rest :=
    bump_drop hd2
  unfold TrackParser.tryParseNextEvent
  rw [hv]
  dsimp only [pbind]
  rw [hc]
  dsimp only [pbind]
  rw [if_neg (by decide), if_neg (by decide), if_neg (by decide), if_neg (by decide),
    if_neg (by decide), if_neg (by decide), if_neg (by decide), if_neg (by decide),
    if_neg (by decide), if_neg (by decide), if_neg (by decide), if_neg (by decide),
    if_neg (by decide), if_pos (Eq.refl (0xFF : Nat))]
  rw [hs]
  dsimp only [pbind]
  unfold metaFixedLen at hfix
  split at hfix
  · cases hfix
    rw [if_pos (Eq.refl _), assertLen_err_cons hd3 hlen]
    dsimp only [pbind]
    rfl
  · cases hfix
    rw [if_neg (by decide), if_neg (by decide), if_pos (Eq.refl _),
      assertLen_err_cons hd3 hlen]
    dsimp only [pbind]
    rfl
  · cases hfix
    rw [if_neg (by decide), if_neg (by decide), if_neg (by decide), if_pos (Eq.refl _),
      assertLen_err_cons hd3 hlen]
    dsimp only [pbind]
    rfl
  · cases hfix
    rw [if_neg (by decide), if_neg (by decide), if_neg (by decide), if_neg (by decide),
      if_pos (Eq.refl _), assertLen_err_cons hd3 hlen]
    dsimp only [pbind]
    rfl
  · cases hfix
    rw [if_neg (by decide), if_neg (by decide), if_neg (by decide), if_neg (by decide),
      if_neg (by decide), if_pos (Eq.refl _), assertLen_err_cons hd3 hlen]
    dsimp only [pbind]
    rfl
  · cases hfix
    rw [if_neg (by decide), if_neg (by decide), if_neg (by decide), if_neg (by decide),
      if_neg (by decide), if_neg (by decide), if_pos (Eq.refl _),
      assertLen_err_cons hd3 hlen]
    dsimp only [pbind]
    rfl
  · cases hfix
    rw [if_neg (by decide), if_neg (by decide), if_neg (by decide), if_neg (by decide),
      if_neg (by decide), if_neg (by decide), if_neg (by decide), if_pos (Eq.refl _),
      assertLen_err_cons hd3 hlen]
    dsimp only [pbind]
    rfl
  · cases hfix
    rw [if_neg (by decide), if_neg (by decide), if_neg (by decide), if_neg (by decide),
      if_neg (by decide), if_neg (by decide), if_neg (by decide), if_neg (by decide),
      if_pos (Eq.refl _), assertLen_err_cons hd3 hlen]
    dsimp only [pbind]
    rfl
  · cases hfix

/-- C6: for every fixed-layout meta sub-type (0x00, 0x20, 0x21, 0x2F, 0x51,
0x54, 0x58, 0x59), a declared length byte different from the expected fixed
size makes the decoder yield a CorruptEvent error carrying the track index
and current byte offset; this error (like any decode error, including a
byte-source read failure) sets the sticky errored flag, is yielded exactly
once as the final item, and every subsequent `next` returns no item and
leaves the state untouched. -/
theorem C6_fixed_len_mismatch (p : TrackParser) (s L len : Nat) (rest : List Nat)
    (hfix : metaFixedLen s = some L) (hlen : len ≠ L)
    (he : p.errored = false) (hpb : p.pushback = -1)
    (hb : p.reader.data.drop p.reader.pos = 0x00 :: 0xFF :: s :: len :: rest) :
    p.next = (some (.error (.corruptEvent p.reader.track_number (p.reader.pos + 4))),
      { p with
        reader := { p.reader with pos := p.reader.pos + 4 },
        prev_command := 0xFF,
        errored := true }) ∧
    (∀ q : TrackParser, q.errored = true → q.next = (none, q)) ∧
    (∀ (p' : TrackParser) (e : MIDIParseError) (q : TrackParser),
      p'.errored = false → p'.reader.isAtEnd = false →
      p'.tryParseNextEvent = (.error e, q) →
      p'.next = (some (.error e), { q with errored := true })) := by
  refine ⟨?_, fun q hq => next_eq_stop (Or.inl hq),
    fun p' e q h1 h2 h3 => next_eq_error h1 h2 h3⟩
  have hend := isAtEnd_false_of_drop_cons hb
  have ht := tryParse_meta_badlen hpb hfix hlen hb
  exact next_eq_error he hend ht

/-- Witness for C6: a Tempo meta (0x51) declaring length 2 instead of 3, on
track number 3; the error carries track 3 and offset 4, and the parser state
is sticky afterwards. -/
theorem C6_witness :
    TrackParser.next (TrackParser.new ⟨[0x00, 0xFF, 0x51, 0x02, 0xAA, 0xBB], 0, 3⟩) =
      (some (.error (.corruptEvent 3 4)),
       { TrackParser.new ⟨[0x00, 0xFF, 0x51, 0x02, 0xAA, 0xBB], 0, 3⟩ with
         reader := ⟨[0x00, 0xFF, 0x51, 0x02, 0xAA, 0xBB], 4, 3⟩, prev_command := 0xFF,
         errored := true }) ∧
    (∀ q : TrackParser, q.errored = true → q.next = (none, q)) := by
  have h := C6_fixed_len_mismatch (TrackParser.new ⟨[0x00, 0xFF, 0x51, 0x02, 0xAA, 0xBB], 0, 3⟩)
    0x51 3 2 [0xAA, 0xBB] (Eq.refl _) (by decide) (Eq.refl _) (Eq.refl _) (Eq.refl _)
  exact ⟨h.1, h.2.1⟩

theorem assertLen_ok_cons {p : TrackParser} {size : Nat} {bs : List Nat}
    (hb : p.reader.data.drop p.reader.pos = size :: bs) :
    assertLen p size = (.ok (), p.bump) := by
  unfold assertLen
  rw [read_fast_cons hb]
  dsimp only [pbind]
  rw [if_neg (by simp)]

theorem tryParse_eot {p : TrackParser} {rest : List Nat}
    (hpb : p.pushback = -1)
    (hb : p.reader.data.drop p.reader.pos = 0x00 :: 0xFF :: 0x2F :: 0x00 :: rest) :
    p.tryParseNextEvent = (.ok none,
      { p with reader := { p.reader with pos := p.reader.pos + 4 }, prev_command := 0xFF }) := by
  have hd1 : p.bump.reader.data.drop p.bump.reader.pos = 0xFF :: 0x2F :: 0x00 :: rest :=
    bump_drop hb
  have hv := read_var_length_single hpb hb (by decide)
  have hc := readCommand_status_cons (p := p.bump) hpb hd1 (by norm_num)
  have hd2 : ({ p.bump.bump with prev_command := 0xFF } :
      TrackParser).reader.data.drop
      ({ p.bump.bump with prev_command := 0xFF } : TrackParser).reader.pos =
      0x2F :: 0x00 :: rest :=
    bump_drop hd1
  have hs := read_cons (p := { p.bump.bump with prev_command := 0xFF }) hpb hd2
  have hd3 : ({ p.bump.bump with prev_command := 0xFF } :
      TrackParser).bump.reader.data.drop
      ({ p.bump.bump with prev_command := 0xFF } : TrackParser).bump.reader.pos =
      0x00 :: rest :=
    bump_drop hd2
  unfold TrackParser.tryParseNextEvent
  rw [hv]
  dsimp only [pbind]
  rw [hc]
  dsimp only [pbind]
  rw [if_neg (by decide), if_neg (by decide), if_neg (by decide), if_neg (by decide),
    if_neg (by decide), if_neg (by decide), if_neg (by decide), if_neg (by decide),
    if_neg (by decide), if_neg (by decide), if_neg (by decide), if_neg (by decide),
    if_neg (by decide), if_pos (Eq.refl (0xFF : Nat))]
  rw [hs]
  dsimp only [pbind]
  rw [if_neg (by decide), if_neg (by decide), if_neg (by decide), if_neg (by decide),
    if_pos (Eq.refl _), assertLen_ok_cons hd3]
  dsimp only [pbind]
  rfl

theorem next_none_stop : ∀ {p q : TrackParser}, p.next = (none, q) →
    q.errored = true ∨ q.reader.isAtEnd = true := by
  intro p
  induction p using TrackParser.next.induct with
  | case1 p hstop =>
    intro q h
    rw [next_eq, if_pos hstop] at h
    cases h
    simpa using hstop
  | case2 p hstop ev p' ht =>
    intro q h
    rw [next_eq, if_neg hstop, ht] at h
    cases h
  | case3 p hstop p' ht ih =>
    intro q h
    rw [next_eq, if_neg hstop, ht] at h
    exact ih h
  | case4 p hstop e p' ht =>
    intro q h
    rw [next_eq, if_neg hstop, ht] at h
    cases h

/-- C7: consuming a well-formed End-of-Track meta event (`FF 2F 00` after a
delta) produces no item (`Ok none`) and does not terminate iteration by
itself: `next` on the pre-event state equals `next` on the post-event state
(the decoder loops internally); iteration returns no item only when the
terminal state is errored or the byte-source is exhausted. -/
theorem C7_track_end_consumed (p : TrackParser) (rest : List Nat)
    (he : p.errored = false) (hpb : p.pushback = -1)
    (hb : p.reader.data.drop p.reader.pos = 0x00 :: 0xFF :: 0x2F :: 0x00 :: rest) :
    p.tryParseNextEvent = (.ok none,
      { p with reader := { p.reader with pos := p.reader.pos + 4 }, prev_command := 0xFF }) ∧
    p.next = TrackParser.next
      { p with reader := { p.reader with pos := p.reader.pos + 4 }, prev_command := 0xFF } ∧
    (∀ (p' q : TrackParser), p'.next = (none, q) →
      q.errored = true ∨ q.reader.isAtEnd = true) := by
  have ht := tryParse_eot hpb hb
  have hend := isAtEnd_false_of_drop_cons hb
  exact ⟨ht, next_eq_skip he hend ht, fun p' q h => next_none_stop h⟩

/-- Witness for C7: the track `00 FF 2F 00` followed by a Note On; the
End-of-Track meta is skipped and the Note On is still decoded. -/
theorem C7_witness :
    TrackParser.tryParseNextEvent (TrackParser.new ⟨[0x00, 0xFF, 0x2F, 0x00, 0x00, 0x90, 0x3C, 0x40], 0, 0⟩) =
      (.ok none,
       { TrackParser.new ⟨[0x00, 0xFF, 0x2F, 0x00, 0x00, 0x90, 0x3C, 0x40], 0, 0⟩ with
         reader := ⟨[0x00, 0xFF, 0x2F, 0x00, 0x00, 0x90, 0x3C, 0x40], 4, 0⟩,
         prev_command := 0xFF }) ∧
    TrackParser.next (TrackParser.new ⟨[0x00, 0xFF, 0x2F, 0x00, 0x00, 0x90, 0x3C, 0x40], 0, 0⟩) =
      TrackParser.next
        { TrackParser.new ⟨[0x00, 0xFF, 0x2F, 0x00, 0x00, 0x90, 0x3C, 0x40], 0, 0⟩ with
          reader := ⟨[0x00, 0xFF, 0x2F, 0x00, 0x00, 0x90, 0x3C, 0x40], 4, 0⟩,
          prev_command := 0xFF } := by
  have h := C7_track_end_consumed
    (TrackParser.new ⟨[0x00, 0xFF, 0x2F, 0x00, 0x00, 0x90, 0x3C, 0x40], 0, 0⟩)
    [0x00, 0x90, 0x3C, 0x40] (Eq.refl _) (Eq.refl _) (Eq.refl _)
  exact ⟨h.1, h.2.1⟩

/-- Counterexample for C8 as stated: after decoding the meta event
`FF 2F 00` the running status `prev_command` is 0xFF, which is neither 0 nor
in the claimed range 0x80–0xEF. -/
theorem C8_counterexample :
    (TrackParser.next (TrackParser.new ⟨[0x00, 0xFF, 0x2F, 0x00], 0, 0⟩)).2.prev_command =
      0xFF ∧
    ¬((TrackParser.next (TrackParser.new ⟨[0x00, 0xFF, 0x2F, 0x00], 0, 0⟩)).2.prev_command = 0 ∨
      (0x80 ≤ (TrackParser.next (TrackParser.new ⟨[0x00, 0xFF, 0x2F, 0x00], 0, 0⟩)).2.prev_command ∧
        (TrackParser.next (TrackParser.new ⟨[0x00, 0xFF, 0x2F, 0x00], 0, 0⟩)).2.prev_command ≤ 0xEF)) := by
  have ht := tryParse_eot (p := TrackParser.new ⟨[0x00, 0xFF, 0x2F, 0x00], 0, 0⟩)
    (Eq.refl _) (Eq.refl _)
  rw [next_eq_skip (Eq.refl _) (by decide) ht, next_eq_stop (Or.inr (by decide))]
  norm_num

/-- C8 (amended): `prev_command` always holds the last seen status byte — any
byte at or above 0x80, the amendment being that the upper bound is 0xFF (for
example a meta status 0xFF is persisted), not 0xEF — or the initial value 0;
it is updated only by events carrying a true status byte: a borrowed
(pushback) event returns the remembered status and leaves it unchanged, and a
true status byte b (high bit set) is persisted verbatim. -/
theorem C8_prev_command_status (p : TrackParser) :
    (∀ (x : Option (Delta Event)) (q : TrackParser),
      p.reader.wfBytes →
      (p.prev_command = 0 ∨ (0x80 ≤ p.prev_command ∧ p.prev_command < 0x100)) →
      p.tryParseNextEvent = (.ok x, q) →
      (q.prev_command = 0 ∨ (0x80 ≤ q.prev_command ∧ q.prev_command < 0x100))) ∧
    (∀ (b : Nat) (r : TrackParser), p.read = (.ok b, r) → b < 0x80 →
      p.readCommand = (.ok r.prev_command, { r with pushback := (b : Int) }) ∧
      r.prev_command = p.prev_command) ∧
    (∀ (b : Nat) (r : TrackParser), p.read = (.ok b, r) → 0x80 ≤ b →
      p.readCommand = (.ok b, { r with prev_command := b })) := by
  refine ⟨?_, ?_, ?_⟩
  · intro x q hwf hinv ht
    rcases (tryParse_ok_spec ht).2.2.2.2 with hsame | ⟨hge, hlt⟩
    · rw [hsame]
      exact hinv
    · exact Or.inr ⟨hge, hlt hwf⟩
  · intro b r h hlt
    refine ⟨?_, (read_ok_step h).1.2.2.2.2⟩
    unfold TrackParser.readCommand
    rw [h]
    dsimp only [pbind]
    rw [if_pos hlt]
  · intro b r h hge
    unfold TrackParser.readCommand
    rw [h]
    dsimp only [pbind]
    rw [if_neg (by omega)]

/-- Witness for C8 (amended) at the concrete track `00 FF 2F 00`: the range
invariant is maintained across the parse step that persists status 0xFF. -/
theorem C8_witness :
    (TrackParser.new ⟨[0x00, 0xFF, 0x2F, 0x00], 0, 0⟩).reader.wfBytes ∧
    (({ TrackParser.new ⟨[0x00, 0xFF, 0x2F, 0x00], 0, 0⟩ with
        reader := ⟨[0x00, 0xFF, 0x2F, 0x00], 4, 0⟩,
        prev_command := 0xFF } : TrackParser).prev_command = 0 ∨
      (0x80 ≤ ({ TrackParser.new ⟨[0x00, 0xFF, 0x2F, 0x00], 0, 0⟩ with
        reader := ⟨[0x00, 0xFF, 0x2F, 0x00], 4, 0⟩,
        prev_command := 0xFF } : TrackParser).prev_command ∧
       ({ TrackParser.new ⟨[0x00, 0xFF, 0x2F, 0x00], 0, 0⟩ with
        reader := ⟨[0x00, 0xFF, 0x2F, 0x00], 4, 0⟩,
        prev_command := 0xFF } : TrackParser).prev_command < 0x100)) := by
  have hwf : (TrackParser.new ⟨[0x00, 0xFF, 0x2F, 0x00], 0, 0⟩).reader.wfBytes := by
    intro b hb
    fin_cases hb <;> norm_num
  refine ⟨hwf, ?_⟩
  exact (C8_prev_command_status (TrackParser.new ⟨[0x00, 0xFF, 0x2F, 0x00], 0, 0⟩)).1
    none _ hwf (Or.inl (Eq.refl _))
    (tryParse_eot (Eq.refl _) (Eq.refl _))

theorem tryParse_undefined {p : TrackParser} {s : Nat} {rest : List Nat}
    (hpb : p.pushback = -1)
    (hmem : s ∈ [0xF1, 0xF4, 0xF5, 0xF9, 0xFA, 0xFB, 0xFC, 0xFD, 0xFE])
    (hb : p.reader.data.drop p.reader.pos = 0x00 :: s :: rest) :
    p.tryParseNextEvent =
      (.ok (some ⟨0, .undefined s⟩), { p.bump.bump with prev_command := s }) := by
  fin_cases hmem
  all_goals (
    have hd1 := bump_drop hb
    have hv := read_var_length_single hpb hb (by decide)
    have hc := readCommand_status_cons (p := p.bump) hpb hd1 (by norm_num)
    unfold TrackParser.tryParseNextEvent
    rw [hv]
    dsimp only [pbind]
    rw [hc]
    dsimp only [pbind]
    rw [if_neg (by decide), if_neg (by decide), if_neg (by decide), if_neg (by decide),
      if_neg (by decide), if_neg (by decide), if_neg (by decide), if_neg (by decide),
      if_neg (by decide), if_neg (by decide), if_neg (by decide), if_neg (by decide),
      if_neg (by decide), if_neg (by decide)]
    rfl)

theorem tryParse_f8 {p : TrackParser} {rest : List Nat}
    (hpb : p.pushback = -1)
    (hb : p.reader.data.drop p.reader.pos = 0x00 :: 0xF8 :: rest) :
    p.tryParseNextEvent =
      (.ok (some ⟨0, .endOfExclusive⟩), { p.bump.bump with prev_command := 0xF8 }) := by
  have hd1 := bump_drop hb
  have hv := read_var_length_single hpb hb (by decide)
  have hc := readCommand_status_cons (p := p.bump) hpb hd1 (by norm_num)
  unfold TrackParser.tryParseNextEvent
  rw [hv]
  dsimp only [pbind]
  rw [hc]
  dsimp only [pbind]
  rw [if_neg (by decide), if_neg (by decide), if_neg (by decide), if_neg (by decide),
    if_neg (by decide), if_neg (by decide), if_neg (by decide), if_neg (by decide),
    if_neg (by decide), if_neg (by decide), if_neg (by decide), if_neg (by decide),
    if_pos (Eq.refl (0xF8 : Nat))]
  rfl

theorem tryParse_unknown_meta {p : TrackParser} {s : Nat} {rest : List Nat}
    (hpb : p.pushback = -1)
    (h0 : s ≠ 0x00) (htext : ¬((1 ≤ s ∧ s ≤ 0x0A) ∨ s = 0xF7))
    (h20 : s ≠ 0x20) (h21 : s ≠ 0x21) (h2F : s ≠ 0x2F) (h51 : s ≠ 0x51)
    (h54 : s ≠ 0x54) (h58 : s ≠ 0x58) (h59 : s ≠ 0x59)
    (hb : p.reader.data.drop p.reader.pos = 0x00 :: 0xFF :: s :: 0x00 :: rest) :
    p.tryParseNextEvent =
      (.ok (some ⟨0, .unknownMeta s []⟩),
       { p with reader := { p.reader with pos := p.reader.pos + 4 }, prev_command := 0xFF }) := by
  have hd1 : p.bump.reader.data.drop p.bump.reader.pos = 0xFF :: s :: 0x00 :: rest :=
    bump_drop hb
  have hv := read_var_length_single hpb hb (by decide)
  have hc := readCommand_status_cons (p := p.bump) hpb hd1 (by norm_num)
  have hd2 : ({ p.bump.bump with prev_command := 0xFF } :
      TrackParser).reader.data.drop
      ({ p.bump.bump with prev_command := 0xFF } : TrackParser).reader.pos =
      s :: 0x00 :: rest :=
    bump_drop hd1
  have hs := read_cons (p := { p.bump.bump with prev_command := 0xFF }) hpb hd2
  have hd3 : ({ p.bump.bump with prev_command := 0xFF } :
      TrackParser).bump.reader.data.drop
      ({ p.bump.bump with prev_command := 0xFF } : TrackParser).bump.reader.pos =
      0x00 :: rest :=
    bump_drop hd2
  have hsz := read_var_length_single
    (p := ({ p.bump.bump with prev_command := 0xFF } : TrackParser).bump) hpb hd3 (by decide)
  unfold TrackParser.tryParseNextEvent
  rw [hv]
  dsimp only [pbind]
  rw [hc]
  dsimp only [pbind]
  rw [if_neg (by decide), if_neg (by decide), if_neg (by decide), if_neg (by decide),
    if_neg (by decide), if_neg (by decide), if_neg (by decide), if_neg (by decide),
    if_neg (by decide), if_neg (by decide), if_neg (by decide), if_neg (by decide),
    if_neg (by decide), if_pos (Eq.refl (0xFF : Nat))]
  rw [hs]
  dsimp only [pbind]
  rw [if_neg h0, if_neg htext, if_neg h20, if_neg h21, if_neg h2F, if_neg h51,
    if_neg h54, if_neg h58, if_neg h59, hsz]
  dsimp only [pbind]
  rw [show readData ({ p.bump.bump with prev_command := 0xFF } :
    TrackParser).bump.bump (0x00 &&& 0x7F) = (.ok [], ({ p.bump.bump with
      prev_command := 0xFF } : TrackParser).bump.bump) from Eq.refl _]
  dsimp only [pbind]
  rfl

/-- Counterexample for C9 as stated: status byte 0xF8 is in the 0xF0 range
and is not among the claim's recognized messages (0xF0, 0xF2, 0xF3, 0xF6,
0xF7, 0xFF), yet the code decodes it to an End-of-Exclusive event, not to an
Undefined event carrying 0xF8. -/
theorem C9_counterexample :
    (TrackParser.next (TrackParser.new ⟨[0x00, 0xF8], 0, 0⟩)).1 =
      some (.ok ⟨0, .endOfExclusive⟩) ∧
    (TrackParser.next (TrackParser.new ⟨[0x00, 0xF8], 0, 0⟩)).1 ≠
      some (.ok ⟨0, .undefined 0xF8⟩) := by
  have ht := tryParse_f8 (p := TrackParser.new ⟨[0x00, 0xF8], 0, 0⟩)
    (Eq.refl _) (Eq.refl _)
  rw [next_eq_some (Eq.refl _) (by decide) ht]
  exact ⟨Eq.refl _, by simp⟩

/-- C9 (amended): every status byte in the 0xF0 range other than the
messages the code recognizes — which include 0xF8, decoded to an
End-of-Exclusive event, in addition to 0xF0, 0xF2, 0xF3, 0xF6, 0xF7 and
0xFF — decodes to an Undefined event carrying the raw status byte, and every
unrecognized meta sub-type decodes to an Unknown-Meta event carrying the raw
sub-type and its payload, so no information is silently dropped. -/
theorem C9_undefined_and_unknown_meta :
    (∀ (p : TrackParser) (s : Nat) (rest : List Nat),
      p.errored = false → p.pushback = -1 →
      s ∈ [0xF1, 0xF4, 0xF5, 0xF9, 0xFA, 0xFB, 0xFC, 0xFD, 0xFE] →
      p.reader.data.drop p.reader.pos = 0x00 :: s :: rest →
      (p.next).1 = some (.ok ⟨0, .undefined s⟩)) ∧
    (∀ (p : TrackParser) (rest : List Nat),
      p.errored = false → p.pushback = -1 →
      p.reader.data.drop p.reader.pos = 0x00 :: 0xF8 :: rest →
      (p.next).1 = some (.ok ⟨0, .endOfExclusive⟩)) ∧
    (∀ (p : TrackParser) (s : Nat) (rest : List Nat),
      p.errored = false → p.pushback = -1 →
      s ≠ 0x00 → ¬((1 ≤ s ∧ s ≤ 0x0A) ∨ s = 0xF7) →
      s ≠ 0x20 → s ≠ 0x21 → s ≠ 0x2F → s ≠ 0x51 → s ≠ 0x54 → s ≠ 0x58 → s ≠ 0x59 →
      p.reader.data.drop p.reader.pos = 0x00 :: 0xFF :: s :: 0x00 :: rest →
      (p.next).1 = some (.ok ⟨0, .unknownMeta s []⟩)) := by
  refine ⟨?_, ?_, ?_⟩
  · intro p s rest he hpb hmem hb
    rw [next_eq_some he (isAtEnd_false_of_drop_cons hb) (tryParse_undefined hpb hmem hb)]
  · intro p rest he hpb hb
    rw [next_eq_some he (isAtEnd_false_of_drop_cons hb) (tryParse_f8 hpb hb)]
  · intro p s rest he hpb h0 htext h20 h21 h2F h51 h54 h58 h59 hb
    rw [next_eq_some he (isAtEnd_false_of_drop_cons hb)
      (tryParse_unknown_meta hpb h0 htext h20 h21 h2F h51 h54 h58 h59 hb)]

/-- Witness for C9 (amended): status 0xF4 decodes to Undefined 0xF4, status
0xF8 to End-of-Exclusive, and meta sub-type 0x7F with empty payload to
Unknown-Meta 0x7F. -/
theorem C9_witness :
    (TrackParser.next (TrackParser.new ⟨[0x00, 0xF4], 0, 0⟩)).1 =
      some (.ok ⟨0, .undefined 0xF4⟩) ∧
    (TrackParser.next (TrackParser.new ⟨[0x00, 0xF8, 0x00], 0, 0⟩)).1 =
      some (.ok ⟨0, .endOfExclusive⟩) ∧
    (TrackParser.next (TrackParser.new ⟨[0x00, 0xFF, 0x7F, 0x00], 0, 0⟩)).1 =
      some (.ok ⟨0, .unknownMeta 0x7F []⟩) :=
  ⟨C9_undefined_and_unknown_meta.1 (TrackParser.new ⟨[0x00, 0xF4], 0, 0⟩) 0xF4 []
      (Eq.refl _) (Eq.refl _) (by decide) (Eq.refl _),
   C9_undefined_and_unknown_meta.2.1 (TrackParser.new ⟨[0x00, 0xF8, 0x00], 0, 0⟩) [0x00]
      (Eq.refl _) (Eq.refl _) (Eq.refl _),
   C9_undefined_and_unknown_meta.2.2 (TrackParser.new ⟨[0x00, 0xFF, 0x7F, 0x00], 0, 0⟩) 0x7F []
      (Eq.refl _) (Eq.refl _) (by decide) (by decide) (by decide) (by decide) (by decide)
      (by decide) (by decide) (by decide) (by decide) (Eq.refl _)⟩
